import Mathlib

/-!
# Verification of the sigma-rust expression IR, evaluator and unsigned transaction

Shallow embedding of the ErgoTree expression fragment exercised by the
specification's claims: the value domain, the `BinOp` evaluator
(`ergotree-ir/src/mir/bin_op.rs`), the lazy `If` node
(`ergo-lib/src/ast/if_op.rs`), the expression serializer, and the unsigned
transaction object (`ergo-lib/src/chain/transaction/unsigned.rs`).

Machine integers are modelled as `Int` payloads with explicit range checks
(two's-complement bounds), matching Rust's checked arithmetic: no wrapping.
-/

/-- Signed integer widths used by the numeric `Value` variants (i8/i16/i32/i64). -/
inductive IW where
  | W8
  | W16
  | W32
  | W64
deriving DecidableEq, Repr

/-- Bit width of an `IW`. -/
def IW.bits : IW → Nat
  | .W8 => 8
  | .W16 => 16
  | .W32 => 32
  | .W64 => 64

/-- Smallest representable value of a signed width (e.g. `i8::MIN = -128`). -/
def minI (w : IW) : Int := -(2 ^ (w.bits - 1))

/-- Largest representable value of a signed width (e.g. `i8::MAX = 127`). -/
def maxI (w : IW) : Int := 2 ^ (w.bits - 1) - 1

/-- `n` is representable at width `w` (the payload invariant of `i8..i64`). -/
def inRange (w : IW) (n : Int) : Prop := minI w ≤ n ∧ n ≤ maxI w

instance (w : IW) (n : Int) : Decidable (inRange w n) := by
  unfold inRange; infer_instance

/-- Rust `checked_add` at width `w`: `None` exactly when the sum overflows. -/
def checked_add (w : IW) (l r : Int) : Option Int :=
  if minI w ≤ l + r ∧ l + r ≤ maxI w then some (l + r) else none

/-- Rust `checked_sub` at width `w`. -/
def checked_sub (w : IW) (l r : Int) : Option Int :=
  if minI w ≤ l - r ∧ l - r ≤ maxI w then some (l - r) else none

/-- Rust `checked_mul` at width `w`. -/
def checked_mul (w : IW) (l r : Int) : Option Int :=
  if minI w ≤ l * r ∧ l * r ≤ maxI w then some (l * r) else none

/-- Rust `checked_div` at width `w`: `None` on division by zero and on
`MIN / -1` (the only overflowing case); otherwise truncated division,
which is `Int.tdiv` (rounding toward zero), as in Rust. -/
def checked_div (w : IW) (l r : Int) : Option Int :=
  if r = 0 then none
  else if l = minI w ∧ r = -1 then none
  else some (Int.tdiv l r)

/-- Modelled from the spec (§3): the closed type variant set `SType`.
The `ergotree-ir` type module is absent from the sources; the fragment here
covers every type a modelled node can report. -/
inductive SType where
  | SAny
  | SBoolean
  | SByte
  | SShort
  | SInt
  | SLong
  | SBigInt
  | SGroupElement
  | SSigmaProp
  | SBox
  | SAvlTree
  | SOption (elemTpe : SType)
  | SColl (elemTpe : SType)
deriving DecidableEq, Repr

/-- The runtime value domain (`Value` in `ergotree-ir/src/mir/value.rs`,
absent from the sources; modelled from the spec §2.1/§3 restricted to the
variants the modelled nodes produce or inspect). `BigInt` is a payload-less
variant exactly as it appears in the source snapshot
(`Value::BigInt => todo!()` arms bind no payload). -/
inductive Value where
  | Boolean (raw : Bool)
  | Byte (raw : Int)
  | Short (raw : Int)
  | IntV (raw : Int)
  | Long (raw : Int)
  | BigInt
deriving DecidableEq, Repr

/-- Debug rendering used in error messages (Rust `format!` with `{:?}`). -/
def Value.describe : Value → String
  | .Boolean b => "Boolean(" ++ toString b ++ ")"
  | .Byte n => "Byte(" ++ toString n ++ ")"
  | .Short n => "Short(" ++ toString n ++ ")"
  | .IntV n => "Int(" ++ toString n ++ ")"
  | .Long n => "Long(" ++ toString n ++ ")"
  | .BigInt => "BigInt"

/-- Type of a value (used for `Constant::tpe`). -/
def Value.tpe : Value → SType
  | .Boolean _ => .SBoolean
  | .Byte _ => .SByte
  | .Short _ => .SShort
  | .IntV _ => .SInt
  | .Long _ => .SLong
  | .BigInt => .SBigInt

/-- The numeric value constructor for a width (monomorphisation of the
`Into<Value>` bound on `eval_plus` and friends). -/
def Value.ofNum : IW → Int → Value
  | .W8, n => .Byte n
  | .W16, n => .Short n
  | .W32, n => .IntV n
  | .W64, n => .Long n

/-- Evaluation errors (`EvalError` in `ergotree-ir/src/eval/mod.rs`, absent
from the sources; variants are the ones the modelled code constructs).
`PanicTodo` is the distinguished outcome modelling a Rust `todo!()` panic —
an unwind, not a `Result` error — so that a panic is never confused with a
successful result or a classified error. -/
inductive EvalError where
  | ArithmeticException (msg : String)
  | UnexpectedValue (msg : String)
  | CostLimitExceeded
  | PanicTodo (msg : String)
deriving DecidableEq, Repr

/-- Modelled from the spec (§4.4): the cost accumulator carried by the
evaluator (`ergotree-ir/src/eval/cost_accum.rs`, absent from the sources).
`add` charges a cost and fails with `CostLimitExceeded` once the configured
ceiling is exceeded. -/
structure CostAccum where
  cost : Nat
  limit : Nat
deriving DecidableEq, Repr

/-- Charge `c` units; error when the ceiling would be exceeded. -/
def CostAccum.add (ca : CostAccum) (c : Nat) : Except EvalError CostAccum :=
  if ca.limit < ca.cost + c then .error .CostLimitExceeded
  else .ok ⟨ca.cost + c, ca.limit⟩

/-- Modelled from the spec (§4.4): the per-node cost table
(`Costs::DEFAULT`, absent from the sources). `eq_const_size` is the unit
charged by `BinOp::eval`; `const_access` the unit charged by a constant. -/
structure Costs where
  eq_const_size : Nat
  const_access : Nat

/-- The default cost table configuration. -/
def Costs.DEFAULT : Costs := ⟨1, 1⟩

/-- Evaluation context (`EvalContext`, absent from the sources). It carries
the cost accumulator; the read-only blockchain context is omitted because no
modelled node reads it. -/
structure EvalContext where
  cost_accum : CostAccum
deriving DecidableEq, Repr

/-- Modelled from the spec (§3): the immutable variable environment.
No modelled node reads it; it is threaded to mirror the `eval` signatures. -/
structure Env where
  vals : List (Nat × Value)

/-- The empty environment. -/
def Env.empty : Env := ⟨[]⟩

/-- `ArithOp` from `ergotree-ir/src/mir/bin_op.rs`. -/
inductive ArithOp where
  | Plus
  | Minus
  | Multiply
  | Divide
  | Max
  | Min
deriving DecidableEq, Repr

/-- `RelationOp` from `ergotree-ir/src/mir/bin_op.rs`. -/
inductive RelationOp where
  | Eq
  | NEq
  | GE
  | GT
  | LE
  | LT
  | And
  | Or
deriving DecidableEq, Repr

/-- `BinOpKind` from `ergotree-ir/src/mir/bin_op.rs`. -/
inductive BinOpKind where
  | Arith (op : ArithOp)
  | Relation (op : RelationOp)
deriving DecidableEq, Repr

/-- The expression tree fragment the claims exercise: constants, binary
operations (`BinOp` struct) and the lazy conditional (`If` struct). The
full `Expr` enum is absent from the sources; the constructors mirror the
fields of the structs defined in `bin_op.rs` and `if_op.rs`. -/
inductive Expr where
  | Const (v : Value)
  | binOp (kind : BinOpKind) (left right : Expr)
  | ifE (condition true_branch false_branch : Expr)
deriving DecidableEq, Repr

/-- The `If` struct of `ergo-lib/src/ast/if_op.rs` (its three fields). -/
structure If where
  condition : Expr
  true_branch : Expr
  false_branch : Expr
deriving DecidableEq, Repr

/-- `If` as an expression node. -/
def If.toExpr (i : If) : Expr := .ifE i.condition i.true_branch i.false_branch

/-- Result type of an expression: `Constant::tpe` on constants,
`BinOp::tpe` (`SBoolean` for relations, else the left operand's type) and
`If::tpe` (the true branch's type) from the sources. -/
def Expr.tpe : Expr → SType
  | .Const v => v.tpe
  | .binOp kind l _ =>
      match kind with
      | .Relation _ => .SBoolean
      | .Arith _ => l.tpe
  | .ifE _ t _ => t.tpe

/-- `If::tpe` from the source: the type of the true branch. -/
def If.tpe (i : If) : SType := i.true_branch.tpe

/-- Decidable equality for `Except` results, so that concrete evaluator runs
can be checked by `decide`. -/
def Except.decEqAux {ε α : Type} [DecidableEq ε] [DecidableEq α] :
    (a b : Except ε α) → Decidable (a = b)
  | .ok a, .ok b =>
    match decEq a b with
    | .isTrue h => .isTrue (h ▸ rfl)
    | .isFalse h => .isFalse fun hh => h (Except.ok.inj hh)
  | .ok _, .error _ => .isFalse fun hh => Except.noConfusion hh
  | .error _, .ok _ => .isFalse fun hh => Except.noConfusion hh
  | .error a, .error b =>
    match decEq a b with
    | .isTrue h => .isTrue (h ▸ rfl)
    | .isFalse h => .isFalse fun hh => h (Except.error.inj hh)

instance {ε α : Type} [DecidableEq ε] [DecidableEq α] : DecidableEq (Except ε α) :=
  Except.decEqAux

/-- `Value::try_extract_into::<bool>`. Modelled from the spec (§4.4, §7):
the conversion of a failed extraction into an evaluation error is absent
from the sources; per the spec a value of an unsupported variant is
`UnexpectedValue`. -/
def Value.tryExtractBool : Value → Except EvalError Bool
  | .Boolean b => .ok b
  | v => .error (.UnexpectedValue ("expected bool, got " ++ v.describe))

/-- `Value::try_extract_into::<T>` for the numeric type of width `w`
(same error modelling as `tryExtractBool`). -/
def Value.tryExtractNum : IW → Value → Except EvalError Int
  | .W8, .Byte n => .ok n
  | .W16, .Short n => .ok n
  | .W32, .IntV n => .ok n
  | .W64, .Long n => .ok n
  | _, v => .error (.UnexpectedValue ("expected numeric value, got " ++ v.describe))

/-- `eval_plus` from `bin_op.rs`, monomorphised on the width of the already
extracted left payload: extract the right payload at the same width, then
checked addition; overflow is `ArithmeticException`. -/
def eval_plus (w : IW) (lv_raw : Int) (rv : Value) : Except EvalError Value :=
  match rv.tryExtractNum w with
  | .error e => .error e
  | .ok rv_raw =>
    match checked_add w lv_raw rv_raw with
    | some s => .ok (Value.ofNum w s)
    | none => .error (.ArithmeticException
        ("(" ++ toString lv_raw ++ ") + (" ++ toString rv_raw ++ ") resulted in overflow"))

/-- `eval_minus` from `bin_op.rs`. -/
def eval_minus (w : IW) (lv_raw : Int) (rv : Value) : Except EvalError Value :=
  match rv.tryExtractNum w with
  | .error e => .error e
  | .ok rv_raw =>
    match checked_sub w lv_raw rv_raw with
    | some s => .ok (Value.ofNum w s)
    | none => .error (.ArithmeticException
        ("(" ++ toString lv_raw ++ ") - (" ++ toString rv_raw ++ ") resulted in overflow"))

/-- `eval_mul` from `bin_op.rs`. -/
def eval_mul (w : IW) (lv_raw : Int) (rv : Value) : Except EvalError Value :=
  match rv.tryExtractNum w with
  | .error e => .error e
  | .ok rv_raw =>
    match checked_mul w lv_raw rv_raw with
    | some s => .ok (Value.ofNum w s)
    | none => .error (.ArithmeticException
        ("(" ++ toString lv_raw ++ ") * (" ++ toString rv_raw ++ ") resulted in overflow"))

/-- `eval_div` from `bin_op.rs`: division by zero (and `MIN / -1`) is
`ArithmeticException`. -/
def eval_div (w : IW) (lv_raw : Int) (rv : Value) : Except EvalError Value :=
  match rv.tryExtractNum w with
  | .error e => .error e
  | .ok rv_raw =>
    match checked_div w lv_raw rv_raw with
    | some s => .ok (Value.ofNum w s)
    | none => .error (.ArithmeticException
        ("(" ++ toString lv_raw ++ ") / (" ++ toString rv_raw ++ ") resulted in exception"))

/-- `eval_max` from `bin_op.rs`: total, no overflow. -/
def eval_max (w : IW) (lv_raw : Int) (rv : Value) : Except EvalError Value :=
  match rv.tryExtractNum w with
  | .error e => .error e
  | .ok rv_raw => .ok (Value.ofNum w (max lv_raw rv_raw))

/-- `eval_min` from `bin_op.rs`: total, no overflow. -/
def eval_min (w : IW) (lv_raw : Int) (rv : Value) : Except EvalError Value :=
  match rv.tryExtractNum w with
  | .error e => .error e
  | .ok rv_raw => .ok (Value.ofNum w (min lv_raw rv_raw))

/-- The `UnexpectedValue` error raised by the dispatch fallback arms of
`BinOp::eval` when the left operand is not numeric. -/
def unexpectedLeft (lv : Value) : EvalError :=
  .UnexpectedValue ("expected BinOp::left to be numeric value, got " ++ lv.describe)

/-- `eval_ge` from `bin_op.rs`: dispatch on the left variant, extract the
right payload at the same width. `Value::BigInt` hits `todo!()`. -/
def eval_ge (lv rv : Value) : Except EvalError Value :=
  match lv with
  | .Byte n => (rv.tryExtractNum .W8).map fun m => Value.Boolean (decide (n ≥ m))
  | .Short n => (rv.tryExtractNum .W16).map fun m => Value.Boolean (decide (n ≥ m))
  | .IntV n => (rv.tryExtractNum .W32).map fun m => Value.Boolean (decide (n ≥ m))
  | .Long n => (rv.tryExtractNum .W64).map fun m => Value.Boolean (decide (n ≥ m))
  | .BigInt => .error (.PanicTodo "not yet implemented")
  | _ => .error (unexpectedLeft lv)

/-- `eval_gt` from `bin_op.rs`. -/
def eval_gt (lv rv : Value) : Except EvalError Value :=
  match lv with
  | .Byte n => (rv.tryExtractNum .W8).map fun m => Value.Boolean (decide (n > m))
  | .Short n => (rv.tryExtractNum .W16).map fun m => Value.Boolean (decide (n > m))
  | .IntV n => (rv.tryExtractNum .W32).map fun m => Value.Boolean (decide (n > m))
  | .Long n => (rv.tryExtractNum .W64).map fun m => Value.Boolean (decide (n > m))
  | .BigInt => .error (.PanicTodo "not yet implemented")
  | _ => .error (unexpectedLeft lv)

/-- `eval_lt` from `bin_op.rs`. -/
def eval_lt (lv rv : Value) : Except EvalError Value :=
  match lv with
  | .Byte n => (rv.tryExtractNum .W8).map fun m => Value.Boolean (decide (n < m))
  | .Short n => (rv.tryExtractNum .W16).map fun m => Value.Boolean (decide (n < m))
  | .IntV n => (rv.tryExtractNum .W32).map fun m => Value.Boolean (decide (n < m))
  | .Long n => (rv.tryExtractNum .W64).map fun m => Value.Boolean (decide (n < m))
  | .BigInt => .error (.PanicTodo "not yet implemented")
  | _ => .error (unexpectedLeft lv)

/-- `eval_le` from `bin_op.rs`. -/
def eval_le (lv rv : Value) : Except EvalError Value :=
  match lv with
  | .Byte n => (rv.tryExtractNum .W8).map fun m => Value.Boolean (decide (n ≤ m))
  | .Short n => (rv.tryExtractNum .W16).map fun m => Value.Boolean (decide (n ≤ m))
  | .IntV n => (rv.tryExtractNum .W32).map fun m => Value.Boolean (decide (n ≤ m))
  | .Long n => (rv.tryExtractNum .W64).map fun m => Value.Boolean (decide (n ≤ m))
  | .BigInt => .error (.PanicTodo "not yet implemented")
  | _ => .error (unexpectedLeft lv)

/-- Pair an operand-level result with the context threaded past the right
operand (the `Ok((v, ctx2))` plumbing shared by every strict arm). -/
def withCtx (res : Except EvalError Value) (ctx2 : EvalContext) :
    Except EvalError (Value × EvalContext) :=
  match res with
  | .error e => .error e
  | .ok v => .ok (v, ctx2)

/-- The checked evaluation function selected by an `ArithOp` (the
`eval_plus`/`eval_minus`/... dispatch of `BinOp::eval`). -/
def ArithOp.evalFn : ArithOp → IW → Int → Value → Except EvalError Value
  | .Plus => eval_plus
  | .Minus => eval_minus
  | .Multiply => eval_mul
  | .Divide => eval_div
  | .Max => eval_max
  | .Min => eval_min

/-- The `match lv` block that every `ArithOp` arm of `BinOp::eval` repeats:
dispatch on the left operand's numeric variant, force the right operand only
in the numeric arms, `todo!()` on `BigInt`, `UnexpectedValue` otherwise.
The six structurally identical blocks of the source are factored through the
function argument `f`. -/
def arithValue (f : IW → Int → Value → Except EvalError Value) (lv : Value)
    (rres : Except EvalError (Value × EvalContext)) :
    Except EvalError (Value × EvalContext) :=
  match lv with
  | .Byte n =>
    match rres with
    | .error e => .error e
    | .ok (rvv, ctx2) => withCtx (f .W8 n rvv) ctx2
  | .Short n =>
    match rres with
    | .error e => .error e
    | .ok (rvv, ctx2) => withCtx (f .W16 n rvv) ctx2
  | .IntV n =>
    match rres with
    | .error e => .error e
    | .ok (rvv, ctx2) => withCtx (f .W32 n rvv) ctx2
  | .Long n =>
    match rres with
    | .error e => .error e
    | .ok (rvv, ctx2) => withCtx (f .W64 n rvv) ctx2
  | .BigInt => .error (.PanicTodo "not yet implemented")
  | _ => .error (unexpectedLeft lv)

/-- An ordering arm of `BinOp::eval` (`eval_gt(lv, rv()?)` and friends):
force the right operand, then compare. -/
def relValue (g : Value → Value → Except EvalError Value) (lv : Value)
    (rres : Except EvalError (Value × EvalContext)) :
    Except EvalError (Value × EvalContext) :=
  match rres with
  | .error e => .error e
  | .ok (rvv, ctx2) => withCtx (g lv rvv) ctx2

/-- The dispatch of `BinOp::eval` after the left operand has been evaluated.
`rres` stands for the source's lazy `rv` closure: in this pure embedding the
right operand's result is passed as a value, and an arm that does not
inspect `rres` corresponds exactly to an arm that never forces `rv` (its
result is then independent of the right operand, errors included). -/
def evalBinOpRest (kind : BinOpKind) (lv : Value) (ctx1 : EvalContext)
    (rres : Except EvalError (Value × EvalContext)) :
    Except EvalError (Value × EvalContext) :=
  match kind with
  | .Relation op =>
    match op with
    | .Eq =>
      match rres with
      | .error e => .error e
      | .ok (rvv, ctx2) => .ok (.Boolean (decide (lv = rvv)), ctx2)
    | .NEq =>
      match rres with
      | .error e => .error e
      | .ok (rvv, ctx2) => .ok (.Boolean (decide (lv ≠ rvv)), ctx2)
    | .GT => relValue eval_gt lv rres
    | .LT => relValue eval_lt lv rres
    | .GE => relValue eval_ge lv rres
    | .LE => relValue eval_le lv rres
    | .And =>
      match lv.tryExtractBool with
      | .error e => .error e
      | .ok lb =>
        if lb then
          match rres with
          | .error e => .error e
          | .ok (rvv, ctx2) =>
            match rvv.tryExtractBool with
            | .error e => .error e
            | .ok rb => .ok (.Boolean rb, ctx2)
        else .ok (.Boolean false, ctx1)
    | .Or =>
      match lv.tryExtractBool with
      | .error e => .error e
      | .ok lb =>
        if !lb then
          match rres with
          | .error e => .error e
          | .ok (rvv, ctx2) =>
            match rvv.tryExtractBool with
            | .error e => .error e
            | .ok rb => .ok (.Boolean rb, ctx2)
        else .ok (.Boolean true, ctx1)
  | .Arith op => arithValue op.evalFn lv rres

/-- The evaluator over the modelled fragment.

* `Const`: returns its value (the per-node cost charge is modelled from the
  spec §4.4; `Constant::eval` is absent from the sources).
* `binOp`: `BinOp::eval` from `bin_op.rs` — charges
  `Costs::DEFAULT.eq_const_size`, evaluates the left operand, then
  dispatches through `evalBinOpRest`.
* `ifE`: `If::eval` from `if_op.rs` — evaluates the condition, extracts a
  `bool`, then evaluates exactly the selected branch; charges no cost of
  its own. -/
def eval : Expr → Env → EvalContext → Except EvalError (Value × EvalContext)
  | .Const v, _, ctx =>
    match ctx.cost_accum.add Costs.DEFAULT.const_access with
    | .error e => .error e
    | .ok ca => .ok (v, ⟨ca⟩)
  | .binOp kind l r, env, ctx =>
    match ctx.cost_accum.add Costs.DEFAULT.eq_const_size with
    | .error e => .error e
    | .ok ca =>
      match eval l env ⟨ca⟩ with
      | .error e => .error e
      | .ok (lv, ctx1) => evalBinOpRest kind lv ctx1 (eval r env ctx1)
  | .ifE c t f, env, ctx =>
    match eval c env ctx with
    | .error e => .error e
    | .ok (cv, ctx1) =>
      match cv.tryExtractBool with
      | .error e => .error e
      | .ok cb => if cb then eval t env ctx1 else eval f env ctx1

example : eval (.binOp (.Arith .Plus) (.Const (.IntV 2)) (.Const (.IntV 3)))
    Env.empty ⟨⟨0, 10⟩⟩ = .ok (.IntV 5, ⟨⟨3, 10⟩⟩) := by decide

example : eval (.ifE (.Const (.Boolean true)) (.Const (.Long 1))
      (.binOp (.Arith .Divide) (.Const (.Long 1)) (.Const (.Long 0))))
    Env.empty ⟨⟨0, 10⟩⟩ = .ok (.Long 1, ⟨⟨2, 10⟩⟩) := by decide

/-- Cost-free value semantics: the same evaluation strategy as `eval` with
the cost accumulator erased. It is the reference against which `eval` is
proven to agree, and it decides which nodes an evaluation visits. -/
def evalVBinOpRest (kind : BinOpKind) (lv : Value)
    (rres : Except EvalError Value) : Except EvalError Value :=
  match kind with
  | .Relation op =>
    match op with
    | .Eq =>
      match rres with
      | .error e => .error e
      | .ok rvv => .ok (.Boolean (decide (lv = rvv)))
    | .NEq =>
      match rres with
      | .error e => .error e
      | .ok rvv => .ok (.Boolean (decide (lv ≠ rvv)))
    | .GT =>
      match rres with
      | .error e => .error e
      | .ok rvv => eval_gt lv rvv
    | .LT =>
      match rres with
      | .error e => .error e
      | .ok rvv => eval_lt lv rvv
    | .GE =>
      match rres with
      | .error e => .error e
      | .ok rvv => eval_ge lv rvv
    | .LE =>
      match rres with
      | .error e => .error e
      | .ok rvv => eval_le lv rvv
    | .And =>
      match lv.tryExtractBool with
      | .error e => .error e
      | .ok lb =>
        if lb then
          match rres with
          | .error e => .error e
          | .ok rvv =>
            match rvv.tryExtractBool with
            | .error e => .error e
            | .ok rb => .ok (.Boolean rb)
        else .ok (.Boolean false)
    | .Or =>
      match lv.tryExtractBool with
      | .error e => .error e
      | .ok lb =>
        if !lb then
          match rres with
          | .error e => .error e
          | .ok rvv =>
            match rvv.tryExtractBool with
            | .error e => .error e
            | .ok rb => .ok (.Boolean rb)
        else .ok (.Boolean true)
  | .Arith op =>
    match lv with
    | .Byte n =>
      match rres with
      | .error e => .error e
      | .ok rvv => op.evalFn .W8 n rvv
    | .Short n =>
      match rres with
      | .error e => .error e
      | .ok rvv => op.evalFn .W16 n rvv
    | .IntV n =>
      match rres with
      | .error e => .error e
      | .ok rvv => op.evalFn .W32 n rvv
    | .Long n =>
      match rres with
      | .error e => .error e
      | .ok rvv => op.evalFn .W64 n rvv
    | .BigInt => .error (.PanicTodo "not yet implemented")
    | _ => .error (unexpectedLeft lv)

/-- Cost-free evaluator (see `evalVBinOpRest`). -/
def evalV : Expr → Env → Except EvalError Value
  | .Const v, _ => .ok v
  | .binOp kind l r, env =>
    match evalV l env with
    | .error e => .error e
    | .ok lv => evalVBinOpRest kind lv (evalV r env)
  | .ifE c t f, env =>
    match evalV c env with
    | .error e => .error e
    | .ok cv =>
      match cv.tryExtractBool with
      | .error e => .error e
      | .ok cb => if cb then evalV t env else evalV f env

/-- Whether an `Arith` arm of `BinOp::eval` forces the right operand:
exactly when the left operand is a fixed-width numeric value (`BigInt` hits
`todo!()` first and a non-numeric left fails first, both without touching
the right operand). -/
def rightNeededArith : Value → Bool
  | .Byte _ => true
  | .Short _ => true
  | .IntV _ => true
  | .Long _ => true
  | _ => false

/-- Whether `BinOp::eval` forces its right operand, given the operation and
the left operand's value: `And` only when the left is `true`, `Or` only when
the left is `false` (the short-circuits), every other relation always, and
arithmetic per `rightNeededArith`. -/
def rightNeeded : BinOpKind → Value → Bool
  | .Arith _, lv => rightNeededArith lv
  | .Relation .And, lv =>
    match lv with
    | .Boolean b => b
    | _ => false
  | .Relation .Or, lv =>
    match lv with
    | .Boolean b => !b
    | _ => false
  | .Relation _, _ => true

/-- The total cost charged by the nodes an evaluation actually visits:
each visited constant charges `const_access`, each visited `BinOp` charges
`eq_const_size` plus its left operand's cost plus — only when the dispatch
forces it — its right operand's cost, and a visited `If` charges nothing
itself (`If::eval` performs no `cost_accum.add`), plus the condition's cost
and the selected branch's cost. Unvisited subtrees contribute nothing. -/
def visitedCost : Expr → Env → Nat
  | .Const _, _ => Costs.DEFAULT.const_access
  | .binOp kind l r, env =>
    Costs.DEFAULT.eq_const_size + visitedCost l env +
      (match evalV l env with
       | .ok lv => if rightNeeded kind lv then visitedCost r env else 0
       | .error _ => 0)
  | .ifE c t f, env =>
    visitedCost c env +
      (match evalV c env with
       | .ok cv =>
         (match cv.tryExtractBool with
          | .ok cb => if cb then visitedCost t env else visitedCost f env
          | .error _ => 0)
       | .error _ => 0)

lemma Value.tryExtractBool_ok {v : Value} {b : Bool} (h : v.tryExtractBool = .ok b) :
    v = .Boolean b := by
  cases v <;> simp_all [Value.tryExtractBool]

/-- A strict right-operand arm (`match rres … withCtx (k rvv) ctx2`):
success determines the pure result and shows the right operand's cost was
paid. -/
lemma forceRight_ok_spec {k : Value → Except EvalError Value}
    {rres : Except EvalError (Value × EvalContext)} {rresV : Except EvalError Value}
    {v : Value} {out : EvalContext} {base rc L : Nat}
    (hagree : ∀ v2 out2, rres = .ok (v2, out2) →
      rresV = .ok v2 ∧ out2 = ⟨⟨base + rc, L⟩⟩ ∧ base + rc ≤ L)
    (h : (match rres with
          | Except.error e => (Except.error e : Except EvalError (Value × EvalContext))
          | Except.ok (rvv, ctx2) => withCtx (k rvv) ctx2) = Except.ok (v, out)) :
    (match rresV with
     | Except.error e => (Except.error e : Except EvalError Value)
     | Except.ok rvv => k rvv) = Except.ok v ∧
      out = ⟨⟨base + rc, L⟩⟩ ∧ base + rc ≤ L := by
  cases hr : rres with
  | error e => rw [hr] at h; exact Except.noConfusion h
  | ok p =>
    obtain ⟨rvv, ctx2⟩ := p
    rw [hr] at h
    obtain ⟨h1, h2, h3⟩ := hagree rvv ctx2 hr
    replace h : withCtx (k rvv) ctx2 = Except.ok (v, out) := h
    cases hk : k rvv with
    | error e => rw [hk] at h; exact Except.noConfusion h
    | ok v2 =>
      rw [hk] at h
      replace h : Except.ok (v2, ctx2) = Except.ok (v, out) := h
      simp only [Except.ok.injEq, Prod.mk.injEq] at h
      obtain ⟨hv, hout⟩ := h
      subst hv
      subst hout
      rw [h1]
      exact ⟨hk, h2, h3⟩

lemma evalBinOpRest_ok_spec {kind : BinOpKind} {lv : Value}
    {rres : Except EvalError (Value × EvalContext)} (rresV : Except EvalError Value)
    {v : Value} {out : EvalContext} {base L : Nat} (rc : Nat)
    (hbase : base ≤ L)
    (hagree : ∀ v2 out2, rres = .ok (v2, out2) →
      rresV = .ok v2 ∧ out2 = ⟨⟨base + rc, L⟩⟩ ∧ base + rc ≤ L)
    (h : evalBinOpRest kind lv ⟨⟨base, L⟩⟩ rres = .ok (v, out)) :
    evalVBinOpRest kind lv rresV = .ok v ∧
    out = ⟨⟨base + (if rightNeeded kind lv then rc else 0), L⟩⟩ ∧
    base + (if rightNeeded kind lv then rc else 0) ≤ L := by
  cases kind with
  | Relation op =>
    cases op with
    | Eq =>
      replace h : (match rres with
          | Except.error e => (Except.error e : Except EvalError (Value × EvalContext))
          | Except.ok (rvv, ctx2) =>
            withCtx (Except.ok (Value.Boolean (decide (lv = rvv)))) ctx2)
          = Except.ok (v, out) := h
      obtain ⟨h1, h2, h3⟩ := forceRight_ok_spec hagree h
      refine ⟨?_, by rw [h2]; simp [rightNeeded], by simpa [rightNeeded] using h3⟩
      cases rresV with
      | error e => exact Except.noConfusion h1
      | ok rvv => exact h1
    | NEq =>
      replace h : (match rres with
          | Except.error e => (Except.error e : Except EvalError (Value × EvalContext))
          | Except.ok (rvv, ctx2) =>
            withCtx (Except.ok (Value.Boolean (decide (lv ≠ rvv)))) ctx2)
          = Except.ok (v, out) := h
      obtain ⟨h1, h2, h3⟩ := forceRight_ok_spec hagree h
      refine ⟨?_, by rw [h2]; simp [rightNeeded], by simpa [rightNeeded] using h3⟩
      cases rresV with
      | error e => exact Except.noConfusion h1
      | ok rvv => exact h1
    | GT =>
      replace h : (match rres with
          | Except.error e => (Except.error e : Except EvalError (Value × EvalContext))
          | Except.ok (rvv, ctx2) => withCtx (eval_gt lv rvv) ctx2)
          = Except.ok (v, out) := h
      obtain ⟨h1, h2, h3⟩ := forceRight_ok_spec hagree h
      refine ⟨?_, by rw [h2]; simp [rightNeeded], by simpa [rightNeeded] using h3⟩
      cases rresV with
      | error e => exact Except.noConfusion h1
      | ok rvv => exact h1
    | LT =>
      replace h : (match rres with
          | Except.error e => (Except.error e : Except EvalError (Value × EvalContext))
          | Except.ok (rvv, ctx2) => withCtx (eval_lt lv rvv) ctx2)
          = Except.ok (v, out) := h
      obtain ⟨h1, h2, h3⟩ := forceRight_ok_spec hagree h
      refine ⟨?_, by rw [h2]; simp [rightNeeded], by simpa [rightNeeded] using h3⟩
      cases rresV with
      | error e => exact Except.noConfusion h1
      | ok rvv => exact h1
    | GE =>
      replace h : (match rres with
          | Except.error e => (Except.error e : Except EvalError (Value × EvalContext))
          | Except.ok (rvv, ctx2) => withCtx (eval_ge lv rvv) ctx2)
          = Except.ok (v, out) := h
      obtain ⟨h1, h2, h3⟩ := forceRight_ok_spec hagree h
      refine ⟨?_, by rw [h2]; simp [rightNeeded], by simpa [rightNeeded] using h3⟩
      cases rresV with
      | error e => exact Except.noConfusion h1
      | ok rvv => exact h1
    | LE =>
      replace h : (match rres with
          | Except.error e => (Except.error e : Except EvalError (Value × EvalContext))
          | Except.ok (rvv, ctx2) => withCtx (eval_le lv rvv) ctx2)
          = Except.ok (v, out) := h
      obtain ⟨h1, h2, h3⟩ := forceRight_ok_spec hagree h
      refine ⟨?_, by rw [h2]; simp [rightNeeded], by simpa [rightNeeded] using h3⟩
      cases rresV with
      | error e => exact Except.noConfusion h1
      | ok rvv => exact h1
    | And =>
      simp only [evalBinOpRest] at h
      cases hb : lv.tryExtractBool with
      | error e => rw [hb] at h; exact Except.noConfusion h
      | ok lb =>
        rw [hb] at h
        have hlv := Value.tryExtractBool_ok hb
        subst hlv
        cases lb with
        | false =>
          replace h : Except.ok ((Value.Boolean false : Value), (⟨⟨base, L⟩⟩ : EvalContext))
              = Except.ok (v, out) := h
          simp only [Except.ok.injEq, Prod.mk.injEq] at h
          obtain ⟨hv, hout⟩ := h
          subst hv
          subst hout
          refine ⟨by simp [evalVBinOpRest, hb], ?_, ?_⟩
          · simp [rightNeeded]
          · simpa [rightNeeded] using hbase
        | true =>
          replace h : (match rres with
              | Except.error e => (Except.error e : Except EvalError (Value × EvalContext))
              | Except.ok (rvv, ctx2) =>
                match rvv.tryExtractBool with
                | Except.error e => Except.error e
                | Except.ok rb => Except.ok (Value.Boolean rb, ctx2))
              = Except.ok (v, out) := h
          cases hr : rres with
          | error e => rw [hr] at h; exact Except.noConfusion h
          | ok p =>
            obtain ⟨rvv, ctx2⟩ := p
            rw [hr] at h
            obtain ⟨h1, h2, h3⟩ := hagree rvv ctx2 hr
            replace h : (match rvv.tryExtractBool with
                | Except.error e => (Except.error e : Except EvalError (Value × EvalContext))
                | Except.ok rb => Except.ok (Value.Boolean rb, ctx2))
                = Except.ok (v, out) := h
            cases hrb : rvv.tryExtractBool with
            | error e => rw [hrb] at h; exact Except.noConfusion h
            | ok rb =>
              rw [hrb] at h
              replace h : Except.ok ((Value.Boolean rb : Value), ctx2) = Except.ok (v, out) := h
              simp only [Except.ok.injEq, Prod.mk.injEq] at h
              obtain ⟨hv, hout⟩ := h
              subst hv
              subst hout
              refine ⟨by simp [evalVBinOpRest, hb, h1, hrb], ?_, ?_⟩
              · rw [h2]; simp [rightNeeded]
              · simpa [rightNeeded] using h3
    | Or =>
      simp only [evalBinOpRest] at h
      cases hb : lv.tryExtractBool with
      | error e => rw [hb] at h; exact Except.noConfusion h
      | ok lb =>
        rw [hb] at h
        have hlv := Value.tryExtractBool_ok hb
        subst hlv
        cases lb with
        | true =>
          replace h : Except.ok ((Value.Boolean true : Value), (⟨⟨base, L⟩⟩ : EvalContext))
              = Except.ok (v, out) := h
          simp only [Except.ok.injEq, Prod.mk.injEq] at h
          obtain ⟨hv, hout⟩ := h
          subst hv
          subst hout
          refine ⟨by simp [evalVBinOpRest, hb], ?_, ?_⟩
          · simp [rightNeeded]
          · simpa [rightNeeded] using hbase
        | false =>
          replace h : (match rres with
              | Except.error e => (Except.error e : Except EvalError (Value × EvalContext))
              | Except.ok (rvv, ctx2) =>
                match rvv.tryExtractBool with
                | Except.error e => Except.error e
                | Except.ok rb => Except.ok (Value.Boolean rb, ctx2))
              = Except.ok (v, out) := h
          cases hr : rres with
          | error e => rw [hr] at h; exact Except.noConfusion h
          | ok p =>
            obtain ⟨rvv, ctx2⟩ := p
            rw [hr] at h
            obtain ⟨h1, h2, h3⟩ := hagree rvv ctx2 hr
            replace h : (match rvv.tryExtractBool with
                | Except.error e => (Except.error e : Except EvalError (Value × EvalContext))
                | Except.ok rb => Except.ok (Value.Boolean rb, ctx2))
                = Except.ok (v, out) := h
            cases hrb : rvv.tryExtractBool with
            | error e => rw [hrb] at h; exact Except.noConfusion h
            | ok rb =>
              rw [hrb] at h
              replace h : Except.ok ((Value.Boolean rb : Value), ctx2) = Except.ok (v, out) := h
              simp only [Except.ok.injEq, Prod.mk.injEq] at h
              obtain ⟨hv, hout⟩ := h
              subst hv
              subst hout
              refine ⟨by simp [evalVBinOpRest, hb, h1, hrb], ?_, ?_⟩
              · rw [h2]; simp [rightNeeded]
              · simpa [rightNeeded] using h3
  | Arith op =>
    cases lv with
    | Boolean b =>
      replace h : (Except.error (unexpectedLeft (Value.Boolean b))
          : Except EvalError (Value × EvalContext)) = Except.ok (v, out) := h
      exact Except.noConfusion h
    | BigInt =>
      replace h : (Except.error (EvalError.PanicTodo "not yet implemented")
          : Except EvalError (Value × EvalContext)) = Except.ok (v, out) := h
      exact Except.noConfusion h
    | Byte n =>
      replace h : (match rres with
          | Except.error e => (Except.error e : Except EvalError (Value × EvalContext))
          | Except.ok (rvv, ctx2) => withCtx (op.evalFn .W8 n rvv) ctx2)
          = Except.ok (v, out) := h
      obtain ⟨h1, h2, h3⟩ := forceRight_ok_spec hagree h
      refine ⟨?_, by rw [h2]; simp [rightNeeded, rightNeededArith],
        by simpa [rightNeeded, rightNeededArith] using h3⟩
      cases rresV with
      | error e => exact Except.noConfusion h1
      | ok rvv => exact h1
    | Short n =>
      replace h : (match rres with
          | Except.error e => (Except.error e : Except EvalError (Value × EvalContext))
          | Except.ok (rvv, ctx2) => withCtx (op.evalFn .W16 n rvv) ctx2)
          = Except.ok (v, out) := h
      obtain ⟨h1, h2, h3⟩ := forceRight_ok_spec hagree h
      refine ⟨?_, by rw [h2]; simp [rightNeeded, rightNeededArith],
        by simpa [rightNeeded, rightNeededArith] using h3⟩
      cases rresV with
      | error e => exact Except.noConfusion h1
      | ok rvv => exact h1
    | IntV n =>
      replace h : (match rres with
          | Except.error e => (Except.error e : Except EvalError (Value × EvalContext))
          | Except.ok (rvv, ctx2) => withCtx (op.evalFn .W32 n rvv) ctx2)
          = Except.ok (v, out) := h
      obtain ⟨h1, h2, h3⟩ := forceRight_ok_spec hagree h
      refine ⟨?_, by rw [h2]; simp [rightNeeded, rightNeededArith],
        by simpa [rightNeeded, rightNeededArith] using h3⟩
      cases rresV with
      | error e => exact Except.noConfusion h1
      | ok rvv => exact h1
    | Long n =>
      replace h : (match rres with
          | Except.error e => (Except.error e : Except EvalError (Value × EvalContext))
          | Except.ok (rvv, ctx2) => withCtx (op.evalFn .W64 n rvv) ctx2)
          = Except.ok (v, out) := h
      obtain ⟨h1, h2, h3⟩ := forceRight_ok_spec hagree h
      refine ⟨?_, by rw [h2]; simp [rightNeeded, rightNeededArith],
        by simpa [rightNeeded, rightNeededArith] using h3⟩
      cases rresV with
      | error e => exact Except.noConfusion h1
      | ok rvv => exact h1

/-- Inversion of a successful cost charge. -/
lemma costAdd_ok {c L k : Nat} {ca2 : CostAccum} (h : CostAccum.add ⟨c, L⟩ k = .ok ca2) :
    ca2 = ⟨c + k, L⟩ ∧ c + k ≤ L := by
  rw [CostAccum.add] at h
  split at h
  · exact Except.noConfusion h
  · rename_i hlim
    simp only [Except.ok.injEq] at h
    simp only [not_lt] at hlim
    exact ⟨h.symm, by simpa using hlim⟩

/-- Successful evaluation agrees with the cost-free value semantics, and the
final accumulator equals the initial one plus the cost of exactly the
visited nodes, never past the ceiling. -/
lemma eval_ok_spec (e : Expr) : ∀ (env : Env) (c L : Nat) (v : Value) (out : EvalContext),
    eval e env ⟨⟨c, L⟩⟩ = .ok (v, out) →
    evalV e env = .ok v ∧ out = ⟨⟨c + visitedCost e env, L⟩⟩ ∧ c + visitedCost e env ≤ L := by
  induction e with
  | Const v0 =>
    intro env c L v out h
    simp only [eval] at h
    cases hca : CostAccum.add ⟨c, L⟩ Costs.DEFAULT.const_access with
    | error e => rw [hca] at h; exact Except.noConfusion h
    | ok ca =>
      rw [hca] at h
      obtain ⟨hca2, hle⟩ := costAdd_ok hca
      subst hca2
      replace h : Except.ok ((v0 : Value),
          (⟨⟨c + Costs.DEFAULT.const_access, L⟩⟩ : EvalContext)) = Except.ok (v, out) := h
      simp only [Except.ok.injEq, Prod.mk.injEq] at h
      obtain ⟨hv, hout⟩ := h
      subst hv
      subst hout
      exact ⟨by simp [evalV], by simp [visitedCost], by simpa [visitedCost] using hle⟩
  | binOp kind l r ihl ihr =>
    intro env c L v out h
    simp only [eval] at h
    cases hca : CostAccum.add ⟨c, L⟩ Costs.DEFAULT.eq_const_size with
    | error e => rw [hca] at h; exact Except.noConfusion h
    | ok ca =>
      rw [hca] at h
      obtain ⟨hca2, hle⟩ := costAdd_ok hca
      subst hca2
      replace h : (match eval l env ⟨⟨c + Costs.DEFAULT.eq_const_size, L⟩⟩ with
          | Except.error e => (Except.error e : Except EvalError (Value × EvalContext))
          | Except.ok (lv, ctx1) => evalBinOpRest kind lv ctx1 (eval r env ctx1))
          = Except.ok (v, out) := h
      cases hl : eval l env ⟨⟨c + Costs.DEFAULT.eq_const_size, L⟩⟩ with
      | error e => rw [hl] at h; exact Except.noConfusion h
      | ok p =>
        obtain ⟨lv, ctx1⟩ := p
        rw [hl] at h
        obtain ⟨hVl, hctx1, hle1⟩ := ihl env (c + Costs.DEFAULT.eq_const_size) L lv ctx1 hl
        subst hctx1
        replace h : evalBinOpRest kind lv
            ⟨⟨c + Costs.DEFAULT.eq_const_size + visitedCost l env, L⟩⟩
            (eval r env ⟨⟨c + Costs.DEFAULT.eq_const_size + visitedCost l env, L⟩⟩)
            = Except.ok (v, out) := h
        have hrest := evalBinOpRest_ok_spec (evalV r env) (visitedCost r env) hle1
          (fun v2 out2 hr2 =>
            ihr env (c + Costs.DEFAULT.eq_const_size + visitedCost l env) L v2 out2 hr2) h
        obtain ⟨h1, h2, h3⟩ := hrest
        refine ⟨by simp [evalV, hVl, h1], ?_, ?_⟩
        · rw [h2]
          simp only [visitedCost, hVl, EvalContext.mk.injEq, CostAccum.mk.injEq]
          cases hrn : rightNeeded kind lv <;> simp [hrn] <;> omega
        · simp only [visitedCost, hVl]
          cases hrn : rightNeeded kind lv <;> simp [hrn] at h3 ⊢ <;> omega
  | ifE cnd t f ihc iht ihf =>
    intro env c L v out h
    simp only [eval] at h
    cases hc : eval cnd env ⟨⟨c, L⟩⟩ with
    | error e => rw [hc] at h; exact Except.noConfusion h
    | ok p =>
      obtain ⟨cv, ctx1⟩ := p
      rw [hc] at h
      obtain ⟨hVc, hctx1, hle1⟩ := ihc env c L cv ctx1 hc
      subst hctx1
      replace h : (match cv.tryExtractBool with
          | Except.error e => (Except.error e : Except EvalError (Value × EvalContext))
          | Except.ok cb =>
            if cb = true then eval t env ⟨⟨c + visitedCost cnd env, L⟩⟩
            else eval f env ⟨⟨c + visitedCost cnd env, L⟩⟩) = Except.ok (v, out) := h
      cases hb : cv.tryExtractBool with
      | error e => rw [hb] at h; exact Except.noConfusion h
      | ok cb =>
        rw [hb] at h
        have hcv := Value.tryExtractBool_ok hb
        subst hcv
        cases cb with
        | true =>
          replace h : eval t env ⟨⟨c + visitedCost cnd env, L⟩⟩ = Except.ok (v, out) := h
          obtain ⟨hVt, hout, hle2⟩ := iht env (c + visitedCost cnd env) L v out h
          subst hout
          refine ⟨by simp [evalV, hVc, hVt, Value.tryExtractBool], ?_, ?_⟩
          · simp [visitedCost, hVc, Value.tryExtractBool, EvalContext.mk.injEq, CostAccum.mk.injEq]
            omega
          · simp [visitedCost, hVc, Value.tryExtractBool]
            omega
        | false =>
          replace h : eval f env ⟨⟨c + visitedCost cnd env, L⟩⟩ = Except.ok (v, out) := h
          obtain ⟨hVf, hout, hle2⟩ := ihf env (c + visitedCost cnd env) L v out h
          subst hout
          refine ⟨by simp [evalV, hVc, hVf, Value.tryExtractBool], ?_, ?_⟩
          · simp [visitedCost, hVc, Value.tryExtractBool, EvalContext.mk.injEq, CostAccum.mk.injEq]
            omega
          · simp [visitedCost, hVc, Value.tryExtractBool]
            omega

namespace OpCode

/-- Modelled from the spec (§4.3/§6): per-node opcodes
(`serialization/op_code.rs`, absent from the sources). The exact byte values
are representative; the wire model only requires them to be distinct. -/
def CONST : Nat := 99

/-- `OpCode::IF`. -/
def IF : Nat := 146

/-- `OpCode::EQ`. -/
def EQ : Nat := 147

/-- `OpCode::NEQ`. -/
def NEQ : Nat := 148

/-- `OpCode::GE`. -/
def GE : Nat := 149

/-- `OpCode::GT`. -/
def GT : Nat := 150

/-- `OpCode::LE`. -/
def LE : Nat := 151

/-- `OpCode::LT`. -/
def LT : Nat := 152

/-- `OpCode::BIN_AND`. -/
def BIN_AND : Nat := 153

/-- `OpCode::BIN_OR`. -/
def BIN_OR : Nat := 154

/-- `OpCode::MINUS`. -/
def MINUS : Nat := 155

/-- `OpCode::PLUS`. -/
def PLUS : Nat := 156

/-- `OpCode::MULTIPLY`. -/
def MULTIPLY : Nat := 158

/-- `OpCode::DIVISION`. -/
def DIVISION : Nat := 159

/-- `OpCode::MIN`. -/
def MIN : Nat := 161

/-- `OpCode::MAX`. -/
def MAX : Nat := 162

end OpCode

/-- `From<ArithOp> for OpCode` from `bin_op.rs`. -/
def ArithOp.op_code : ArithOp → Nat
  | .Plus => OpCode.PLUS
  | .Minus => OpCode.MINUS
  | .Multiply => OpCode.MULTIPLY
  | .Divide => OpCode.DIVISION
  | .Max => OpCode.MAX
  | .Min => OpCode.MIN

/-- `From<RelationOp> for OpCode` from `bin_op.rs`. -/
def RelationOp.op_code : RelationOp → Nat
  | .Eq => OpCode.EQ
  | .NEq => OpCode.NEQ
  | .GE => OpCode.GE
  | .GT => OpCode.GT
  | .LE => OpCode.LE
  | .LT => OpCode.LT
  | .And => OpCode.BIN_AND
  | .Or => OpCode.BIN_OR

/-- `From<BinOpKind> for OpCode` / `BinOp::op_code` from `bin_op.rs`. -/
def BinOpKind.op_code : BinOpKind → Nat
  | .Arith o => o.op_code
  | .Relation o => o.op_code

/-- The inverse opcode table used when parsing a binary operation
(modelled from the spec §4.3: opcode dispatch of the expression parser). -/
def binOpKindOfOpCode (b : Nat) : Option BinOpKind :=
  if b = OpCode.PLUS then some (.Arith .Plus)
  else if b = OpCode.MINUS then some (.Arith .Minus)
  else if b = OpCode.MULTIPLY then some (.Arith .Multiply)
  else if b = OpCode.DIVISION then some (.Arith .Divide)
  else if b = OpCode.MAX then some (.Arith .Max)
  else if b = OpCode.MIN then some (.Arith .Min)
  else if b = OpCode.EQ then some (.Relation .Eq)
  else if b = OpCode.NEQ then some (.Relation .NEq)
  else if b = OpCode.GE then some (.Relation .GE)
  else if b = OpCode.GT then some (.Relation .GT)
  else if b = OpCode.LE then some (.Relation .LE)
  else if b = OpCode.LT then some (.Relation .LT)
  else if b = OpCode.BIN_AND then some (.Relation .And)
  else if b = OpCode.BIN_OR then some (.Relation .Or)
  else none

/-- Modelled from the spec (§6): unsigned VLQ, 7 bits per byte, high bit as
continuation flag. -/
def vlqEncode (n : Nat) : List Nat :=
  if n < 128 then [n]
  else (n % 128 + 128) :: vlqEncode (n / 128)
termination_by n
decreasing_by exact Nat.div_lt_self (by omega) (by omega)

/-- VLQ reader; `none` on truncated input. -/
def vlqDecode : List Nat → Option (Nat × List Nat)
  | [] => none
  | b :: rest =>
    if b < 128 then some (b, rest)
    else
      match vlqDecode rest with
      | some (m, r) => some (b - 128 + 128 * m, r)
      | none => none

lemma vlq_roundtrip (n : Nat) : ∀ rest, vlqDecode (vlqEncode n ++ rest) = some (n, rest) := by
  induction n using Nat.strong_induction_on with
  | _ n ih =>
    intro rest
    rw [vlqEncode]
    split
    · rename_i h
      simp [vlqDecode, h]
    · rename_i h
      simp only [List.cons_append, vlqDecode, List.append_eq]
      rw [if_neg (by omega)]
      rw [ih (n / 128) (Nat.div_lt_self (by omega) (by omega)) rest]
      show some (n % 128 + 128 - 128 + 128 * (n / 128), rest) = some (n, rest)
      have hmn : n % 128 + 128 - 128 + 128 * (n / 128) = n := by omega
      rw [hmn]

/-- Modelled from the spec (§6): zig-zag mapping of signed integers onto
unsigned VLQ payloads. -/
def zigzag (z : Int) : Nat :=
  if 0 ≤ z then (2 * z).toNat else (-(2 * z) - 1).toNat

/-- Inverse zig-zag mapping. -/
def unzigzag (n : Nat) : Int :=
  if n % 2 = 0 then ((n / 2 : Nat) : Int) else -(((n / 2 : Nat) : Int) + 1)

lemma zigzag_roundtrip (z : Int) : unzigzag (zigzag z) = z := by
  unfold zigzag unzigzag
  split <;> split <;> omega

/-- Modelled from the spec (§4.3/§7): parse-side failure taxonomy. -/
inductive SerializationError where
  | InvalidOpCode (b : Nat)
  | InvalidTypePrefix (b : Nat)
  | TruncatedInput
  | InvalidData
  | DepthExceeded
deriving DecidableEq, Repr

/-- Modelled from the spec (§4.3): the single-byte `SType` tag written
before a constant's payload. -/
def Value.tpeTag : Value → Nat
  | .Boolean _ => 1
  | .Byte _ => 2
  | .Short _ => 3
  | .IntV _ => 4
  | .Long _ => 5
  | .BigInt => 6

/-- Modelled from the spec (§4.3/§6): a constant's value payload — one byte
for booleans, signed VLQ for the fixed-width integers, nothing for the
opaque `BigInt` variant. -/
def Value.payload : Value → List Nat
  | .Boolean b => [if b then 1 else 0]
  | .Byte n => vlqEncode (zigzag n)
  | .Short n => vlqEncode (zigzag n)
  | .IntV n => vlqEncode (zigzag n)
  | .Long n => vlqEncode (zigzag n)
  | .BigInt => []

/-- Modelled from the spec (§4.3): `Const` parsing — type tag, then payload;
an unknown tag is a parse error. -/
def parseConst : List Nat → Except SerializationError (Expr × List Nat)
  | [] => .error .TruncatedInput
  | t :: bs =>
    if t = 1 then
      match bs with
      | [] => .error .TruncatedInput
      | b :: r =>
        if b = 0 then .ok (.Const (.Boolean false), r)
        else if b = 1 then .ok (.Const (.Boolean true), r)
        else .error .InvalidData
    else if t = 2 then
      match vlqDecode bs with
      | some (n, r) => .ok (.Const (.Byte (unzigzag n)), r)
      | none => .error .TruncatedInput
    else if t = 3 then
      match vlqDecode bs with
      | some (n, r) => .ok (.Const (.Short (unzigzag n)), r)
      | none => .error .TruncatedInput
    else if t = 4 then
      match vlqDecode bs with
      | some (n, r) => .ok (.Const (.IntV (unzigzag n)), r)
      | none => .error .TruncatedInput
    else if t = 5 then
      match vlqDecode bs with
      | some (n, r) => .ok (.Const (.Long (unzigzag n)), r)
      | none => .error .TruncatedInput
    else if t = 6 then .ok (.Const .BigInt, bs)
    else .error (.InvalidTypePrefix t)

/-- Expression serializer: one opcode byte per node, then the node payload.
The `Const` and opcode-dispatch layers are modelled from the spec (§4.3);
the `ifE` payload (condition, then true branch, then false branch) is
`If::sigma_serialize` from `if_op.rs`, and a binary operation's payload
(left, then right) mirrors the `BinOp` wire contract. -/
def Expr.sigma_serialize : Expr → List Nat
  | .Const v => OpCode.CONST :: v.tpeTag :: v.payload
  | .binOp kind l r => kind.op_code :: (l.sigma_serialize ++ r.sigma_serialize)
  | .ifE c t f => OpCode.IF :: (c.sigma_serialize ++ t.sigma_serialize ++ f.sigma_serialize)

/-- `If::sigma_serialize` from `if_op.rs`: the three children in order,
without a leading opcode (the opcode is written by the `Expr` layer). -/
def If.sigma_serialize (i : If) : List Nat :=
  i.condition.sigma_serialize ++ i.true_branch.sigma_serialize ++ i.false_branch.sigma_serialize

/-- Expression parser. The fuel argument bounds the recursion depth
(spec §4.3: parsing fails rather than diverging; depth exceeded is a parse
error). Dispatch on the leading opcode byte; unknown opcodes are a parse
error. The `IF` payload parse (three expressions, no type check) is
`If::sigma_parse` from `if_op.rs`. -/
def Expr.sigma_parse : Nat → List Nat → Except SerializationError (Expr × List Nat)
  | 0, _ => .error .DepthExceeded
  | _ + 1, [] => .error .TruncatedInput
  | fuel + 1, b :: bs =>
    if b = OpCode.CONST then parseConst bs
    else if b = OpCode.IF then
      match Expr.sigma_parse fuel bs with
      | .error e => .error e
      | .ok (condition, r1) =>
        match Expr.sigma_parse fuel r1 with
        | .error e => .error e
        | .ok (true_branch, r2) =>
          match Expr.sigma_parse fuel r2 with
          | .error e => .error e
          | .ok (false_branch, r3) => .ok (.ifE condition true_branch false_branch, r3)
    else
      match binOpKindOfOpCode b with
      | some kind =>
        match Expr.sigma_parse fuel bs with
        | .error e => .error e
        | .ok (l, r1) =>
          match Expr.sigma_parse fuel r1 with
          | .error e => .error e
          | .ok (rr, r2) => .ok (.binOp kind l rr, r2)
      | none => .error (.InvalidOpCode b)

/-- `If::sigma_parse` from `if_op.rs`: read condition, true branch and false
branch in order and rebuild the struct — with no unification check on the
branch types. -/
def If.sigma_parse (fuel : Nat) (bs : List Nat) :
    Except SerializationError (If × List Nat) :=
  match Expr.sigma_parse fuel bs with
  | .error e => .error e
  | .ok (condition, r1) =>
    match Expr.sigma_parse fuel r1 with
    | .error e => .error e
    | .ok (true_branch, r2) =>
      match Expr.sigma_parse fuel r2 with
      | .error e => .error e
      | .ok (false_branch, r3) => .ok (⟨condition, true_branch, false_branch⟩, r3)

/-- Nesting depth of an expression (the fuel needed to parse it back). -/
def Expr.depth : Expr → Nat
  | .Const _ => 1
  | .binOp _ l r => 1 + max l.depth r.depth
  | .ifE c t f => 1 + max c.depth (max t.depth f.depth)

lemma binOpKind_opcode_ne_const (k : BinOpKind) : k.op_code ≠ OpCode.CONST := by
  cases k with
  | Arith o => cases o <;> decide
  | Relation o => cases o <;> decide

lemma binOpKind_opcode_ne_if (k : BinOpKind) : k.op_code ≠ OpCode.IF := by
  cases k with
  | Arith o => cases o <;> decide
  | Relation o => cases o <;> decide

lemma binOpKindOfOpCode_op_code (k : BinOpKind) : binOpKindOfOpCode k.op_code = some k := by
  cases k with
  | Arith o => cases o <;> decide
  | Relation o => cases o <;> decide

lemma parseConst_roundtrip (v : Value) (rest : List Nat) :
    parseConst (v.tpeTag :: (v.payload ++ rest)) = .ok (.Const v, rest) := by
  cases v with
  | Boolean b => cases b <;> simp [parseConst, Value.tpeTag, Value.payload]
  | Byte n => simp [parseConst, Value.tpeTag, Value.payload, vlq_roundtrip, zigzag_roundtrip]
  | Short n => simp [parseConst, Value.tpeTag, Value.payload, vlq_roundtrip, zigzag_roundtrip]
  | IntV n => simp [parseConst, Value.tpeTag, Value.payload, vlq_roundtrip, zigzag_roundtrip]
  | Long n => simp [parseConst, Value.tpeTag, Value.payload, vlq_roundtrip, zigzag_roundtrip]
  | BigInt => simp [parseConst, Value.tpeTag, Value.payload]

lemma sigma_parse_roundtrip (e : Expr) : ∀ (fuel : Nat) (rest : List Nat),
    e.depth ≤ fuel →
    Expr.sigma_parse fuel (e.sigma_serialize ++ rest) = .ok (e, rest) := by
  induction e with
  | Const v =>
    intro fuel rest hd
    simp only [Expr.depth] at hd
    cases fuel with
    | zero => omega
    | succ fuel =>
      simp only [Expr.sigma_serialize, List.cons_append, List.append_eq, Expr.sigma_parse,
        if_true]
      exact parseConst_roundtrip v rest
  | binOp kind l r ihl ihr =>
    intro fuel rest hd
    simp only [Expr.depth] at hd
    cases fuel with
    | zero => omega
    | succ fuel =>
      simp only [Expr.sigma_serialize, List.cons_append, List.append_eq, Expr.sigma_parse]
      rw [if_neg (binOpKind_opcode_ne_const kind), if_neg (binOpKind_opcode_ne_if kind),
        binOpKindOfOpCode_op_code]
      simp only [List.append_assoc,
        ihl fuel (r.sigma_serialize ++ rest) (by omega), ihr fuel rest (by omega)]
  | ifE c t f ihc iht ihf =>
    intro fuel rest hd
    simp only [Expr.depth] at hd
    cases fuel with
    | zero => omega
    | succ fuel =>
      simp only [Expr.sigma_serialize, List.cons_append, List.append_eq, Expr.sigma_parse,
        if_true, if_false]
      simp only [List.append_assoc,
        ihc fuel (t.sigma_serialize ++ (f.sigma_serialize ++ rest)) (by omega),
        iht fuel (f.sigma_serialize ++ rest) (by omega), ihf fuel rest (by omega)]
      rw [if_neg (by decide)]

lemma if_sigma_parse_roundtrip (i : If) (fuel : Nat) (rest : List Nat)
    (hc : i.condition.depth ≤ fuel) (ht : i.true_branch.depth ≤ fuel)
    (hf : i.false_branch.depth ≤ fuel) :
    If.sigma_parse fuel (If.sigma_serialize i ++ rest) = .ok (i, rest) := by
  obtain ⟨c, t, f⟩ := i
  simp only [If.sigma_serialize, If.sigma_parse, List.append_assoc]
  simp only at hc ht hf
  simp only [sigma_parse_roundtrip c fuel (t.sigma_serialize ++ (f.sigma_serialize ++ rest)) hc,
    sigma_parse_roundtrip t fuel (f.sigma_serialize ++ rest) ht,
    sigma_parse_roundtrip f fuel rest hf]

/-- Integer types (ordering and arithmetic are defined only on these). -/
def SType.isNumeric : SType → Bool
  | .SByte | .SShort | .SInt | .SLong | .SBigInt => true
  | _ => false

/-- Modelled from the spec (§4.2): the smart-constructor typing discipline —
arithmetic needs a shared numeric type, `And`/`Or` need `SBoolean` on both
sides, `Eq`/`NEq` need matching types, ordering needs a shared numeric type,
`If` needs a boolean condition and branches of exactly the same type. -/
def wellTyped : Expr → Bool
  | .Const _ => true
  | .binOp kind l r =>
    wellTyped l && wellTyped r &&
      (match kind with
       | .Arith _ => decide (l.tpe = r.tpe) && l.tpe.isNumeric
       | .Relation .And => decide (l.tpe = .SBoolean) && decide (r.tpe = .SBoolean)
       | .Relation .Or => decide (l.tpe = .SBoolean) && decide (r.tpe = .SBoolean)
       | .Relation .Eq => decide (l.tpe = r.tpe)
       | .Relation .NEq => decide (l.tpe = r.tpe)
       | .Relation _ => decide (l.tpe = r.tpe) && l.tpe.isNumeric)
  | .ifE c t f =>
    wellTyped c && wellTyped t && wellTyped f &&
      decide (c.tpe = .SBoolean) && decide (t.tpe = f.tpe)

/-- Modelled from the spec (§4.6): the network protocol's upper bound on the
transaction's input / data-input / output lists (the upper bound of
`TxIoVec`'s `BoundedVec`). -/
def N_MAX : Nat := 65535

/-- `TxIoVec<T> = BoundedVec<T, 1, N_MAX>`: a non-empty, bounded vector. -/
abbrev TxIoVec (α : Type) : Type := {l : List α // 1 ≤ l.length ∧ l.length ≤ N_MAX}

/-- `BoundedVec::try_from(Vec<T>)` (modelled from the spec §4.6): bounds
check; the error carries the offending length (standing for the crate's
`BoundedVecOutOfBounds` payload). -/
def txIoVecOfList {α : Type} (l : List α) : Except Nat (TxIoVec α) :=
  if h : 1 ≤ l.length ∧ l.length ≤ N_MAX then .ok ⟨l, h⟩ else .error l.length

/-- `BoundedVec::opt_empty_vec` (modelled from the spec §4.6): an empty
vector becomes `none`; otherwise the bounds-checked vector. -/
def optEmptyVec {α : Type} (l : List α) : Except Nat (Option (TxIoVec α)) :=
  if l.isEmpty then .ok none
  else
    match txIoVecOfList l with
    | .ok v => .ok (some v)
    | .error n => .error n

/-- `BoundedVec::mapped_ref`: map preserving the length bounds. -/
def TxIoVec.mapped_ref {α β : Type} (v : TxIoVec α) (f : α → β) : TxIoVec β :=
  ⟨v.val.map f, by simpa using v.property⟩

/-- A box identifier (32 bytes). -/
structure BoxId where
  id : List Nat
deriving DecidableEq, Repr

/-- A token identifier (32 bytes). -/
structure TokenId where
  id : List Nat
deriving DecidableEq, Repr

/-- Per-input context extension: a small map from variable id to constant. -/
structure ContextExtension where
  values : List (Nat × Value)
deriving DecidableEq, Repr

/-- An unsigned input: box reference plus context extension, no proof. -/
structure UnsignedInput where
  box_id : BoxId
  extension : ContextExtension
deriving DecidableEq, Repr

/-- A data input: a box reference only. -/
structure DataInput where
  box_id : BoxId
deriving DecidableEq, Repr

/-- An output candidate (modelled from the spec §4.6/§6): value, ergo-tree
bytes, creation height, tokens and registers. -/
structure ErgoBoxCandidate where
  value : Nat
  ergo_tree : List Nat
  creation_height : Nat
  tokens : List (TokenId × Nat)
  additional_registers : List (Nat × Value)
deriving DecidableEq, Repr

/-- `ProofBytes`: empty or some proof bytes. -/
inductive ProofBytes where
  | Empty
  | Some (bytes : List Nat)
deriving DecidableEq, Repr

/-- `ProverResult`: proof plus context extension. -/
structure ProverResult where
  proof : ProofBytes
  extension : ContextExtension
deriving DecidableEq, Repr

/-- A signed input (`Input`): box reference plus prover result. -/
structure Input where
  box_id : BoxId
  spending_proof : ProverResult
deriving DecidableEq, Repr

/-- `Input::new`. -/
def Input.new (box_id : BoxId) (spending_proof : ProverResult) : Input :=
  ⟨box_id, spending_proof⟩

/-- A transaction identifier: 32 hash bytes. -/
structure TxId where
  hash : List Nat
deriving DecidableEq, Repr

/-- `TxId::zero()`: the all-zero id used while the real id is computed. -/
def TxId.zero : TxId := ⟨List.replicate 32 0⟩

/-- Modelled from the spec (§6): the blake2b-256 digest provided by the
external `ergo-chain-types` crate — 32 output bytes, a fixed deterministic
function of the input bytes. The claims depend only on its determinism, not
on the concrete permutation, so a simple mixing function stands in for the
real compression function. -/
def blake2b256_hash (bytes : List Nat) : List Nat :=
  (List.range 32).map fun i =>
    bytes.foldl (fun acc b => (acc * 31 + b + 7) % 256) ((i * 131 + 17) % 256)

/-- A constant as serialized inside extensions and registers
(type tag, then payload — see `Value.tpeTag`/`Value.payload`). -/
def serialize_value (v : Value) : List Nat := v.tpeTag :: v.payload

/-- Wire form of a context extension: `len:vlq` then `(var_id, const)`
entries (spec §6). -/
def serialize_extension (e : ContextExtension) : List Nat :=
  vlqEncode e.values.length ++ e.values.flatMap fun kv => kv.1 :: serialize_value kv.2

/-- Wire form of proof bytes: `len:vlq` then the raw bytes (empty proofs
serialize as a zero length). -/
def serialize_proof_bytes : ProofBytes → List Nat
  | .Empty => vlqEncode 0
  | .Some bs => vlqEncode bs.length ++ bs

/-- Wire form of a signed input: `box_id:32B`, proof bytes, extension
(spec §6). -/
def serialize_input (i : Input) : List Nat :=
  i.box_id.id ++ serialize_proof_bytes i.spending_proof.proof
    ++ serialize_extension i.spending_proof.extension

/-- Wire form of an output candidate: value, ergo-tree bytes, creation
height, tokens, registers (spec §6). -/
def serialize_output (b : ErgoBoxCandidate) : List Nat :=
  vlqEncode b.value ++ vlqEncode b.ergo_tree.length ++ b.ergo_tree
    ++ vlqEncode b.creation_height
    ++ vlqEncode b.tokens.length ++ (b.tokens.flatMap fun tk => tk.1.id ++ vlqEncode tk.2)
    ++ vlqEncode b.additional_registers.length
    ++ (b.additional_registers.flatMap fun kv => kv.1 :: serialize_value kv.2)

/-- A signed transaction (`Transaction`): inputs with proofs, optional data
inputs, output candidates, and the derived id. -/
structure Transaction where
  tx_id : TxId
  inputs : TxIoVec Input
  data_inputs : Option (TxIoVec DataInput)
  output_candidates : TxIoVec ErgoBoxCandidate
deriving DecidableEq

/-- Modelled from the spec (§6): canonical transaction serialization —
`len(inputs):vlq` then inputs, `len(data_inputs):vlq` (0 when absent) then
box ids, `len(outputs):vlq` then outputs. The `tx_id` field is derived and
is not part of the wire form. -/
def Transaction.sigma_serialize_bytes (t : Transaction) : List Nat :=
  vlqEncode t.inputs.val.length ++ t.inputs.val.flatMap serialize_input
    ++ vlqEncode (match t.data_inputs with
        | none => 0
        | some di => di.val.length)
    ++ (match t.data_inputs with
        | none => []
        | some di => di.val.flatMap fun d => d.box_id.id)
    ++ vlqEncode t.output_candidates.val.length
    ++ t.output_candidates.val.flatMap serialize_output

/-- `Transaction::bytes_to_sign` (modelled from the spec §4.6/§6): the
canonical serialization — for a transaction whose proofs are empty this is
the message the prover signs. -/
def Transaction.bytes_to_sign (t : Transaction) : List Nat :=
  t.sigma_serialize_bytes

/-- `Transaction::new` (modelled from the spec §4.6): build the transaction
and derive its id from the hash of its canonical serialization. -/
def Transaction.new (inputs : TxIoVec Input) (data_inputs : Option (TxIoVec DataInput))
    (output_candidates : TxIoVec ErgoBoxCandidate) : Transaction :=
  let t0 : Transaction := ⟨TxId.zero, inputs, data_inputs, output_candidates⟩
  { t0 with tx_id := ⟨blake2b256_hash t0.sigma_serialize_bytes⟩ }

/-- `UnsignedTransaction` from `unsigned.rs`: cached id, unsigned inputs,
optional data inputs, output candidates. -/
structure UnsignedTransaction where
  tx_id : TxId
  inputs : TxIoVec UnsignedInput
  data_inputs : Option (TxIoVec DataInput)
  output_candidates : TxIoVec ErgoBoxCandidate
deriving DecidableEq

/-- `UnsignedTransaction::to_tx_wo_proofs` from `unsigned.rs`: replace every
input's proof by `ProofBytes::Empty`, keep the extensions, and rebuild a
signed-shape transaction. -/
def UnsignedTransaction.to_tx_wo_proofs (s : UnsignedTransaction) : Transaction :=
  let empty_proofs_input := s.inputs.mapped_ref fun ui =>
    Input.new ui.box_id ⟨ProofBytes.Empty, ui.extension⟩
  Transaction.new empty_proofs_input s.data_inputs s.output_candidates

/-- `UnsignedTransaction::bytes_to_sign` from `unsigned.rs`: serialize the
proof-erased transaction. -/
def UnsignedTransaction.bytes_to_sign (s : UnsignedTransaction) : List Nat :=
  s.to_tx_wo_proofs.bytes_to_sign

/-- `UnsignedTransaction::calc_tx_id` from `unsigned.rs`:
`blake2b256(bytes_to_sign)`. -/
def UnsignedTransaction.calc_tx_id (s : UnsignedTransaction) : TxId :=
  ⟨blake2b256_hash s.bytes_to_sign⟩

/-- `UnsignedTransaction::new` from `unsigned.rs`: build with a zero id,
compute the real id from the proof-erased serialization, store it. -/
def UnsignedTransaction.new (inputs : TxIoVec UnsignedInput)
    (data_inputs : Option (TxIoVec DataInput))
    (output_candidates : TxIoVec ErgoBoxCandidate) : UnsignedTransaction :=
  let tx_to_sign : UnsignedTransaction := ⟨TxId.zero, inputs, data_inputs, output_candidates⟩
  { tx_to_sign with tx_id := tx_to_sign.calc_tx_id }

/-- `UnsignedTransaction::id` from `unsigned.rs`: the cached id. -/
def UnsignedTransaction.id (s : UnsignedTransaction) : TxId := s.tx_id

/-- `TransactionError` from the transaction module: one variant per bound
violation, carrying the offending length. -/
inductive TransactionError where
  | InvalidInputsCount (len : Nat)
  | InvalidDataInputsCount (len : Nat)
  | InvalidOutputCandidatesCount (len : Nat)
deriving DecidableEq, Repr

/-- `UnsignedTransaction::new_from_vec` from `unsigned.rs`: bounds-check the
three vectors in order (inputs, then data inputs, then outputs), mapping
each failure to its own `TransactionError` variant, then construct.
In this model serialization is total, so the `SigmaSerializationError`
escape of the source cannot fire. -/
def UnsignedTransaction.new_from_vec (inputs : List UnsignedInput)
    (data_inputs : List DataInput) (output_candidates : List ErgoBoxCandidate) :
    Except TransactionError UnsignedTransaction :=
  match txIoVecOfList inputs with
  | .error n => .error (.InvalidInputsCount n)
  | .ok ins =>
    match optEmptyVec data_inputs with
    | .error n => .error (.InvalidDataInputsCount n)
    | .ok di =>
      match txIoVecOfList output_candidates with
      | .error n => .error (.InvalidOutputCandidatesCount n)
      | .ok outs => .ok (UnsignedTransaction.new ins di outs)

/-- Result classifier: did evaluation succeed? -/
def isOkResult {ε α : Type} : Except ε α → Bool
  | .ok _ => true
  | .error _ => false

/-- Result classifier: failed with `ArithmeticException`. -/
def isArithmeticException {α : Type} : Except EvalError α → Bool
  | .error (.ArithmeticException _) => true
  | _ => false

/-- Result classifier: failed with `UnexpectedValue`. -/
def isUnexpectedValue {α : Type} : Except EvalError α → Bool
  | .error (.UnexpectedValue _) => true
  | _ => false

/-- The host's checked arithmetic selected by an `ArithOp` (Rust's
`checked_add`/`checked_sub`/`checked_mul`/`checked_div`; `Max`/`Min` are
total). -/
def hostChecked : IW → ArithOp → Int → Int → Option Int
  | w, .Plus, l, r => checked_add w l r
  | w, .Minus, l, r => checked_sub w l r
  | w, .Multiply, l, r => checked_mul w l r
  | w, .Divide, l, r => checked_div w l r
  | _, .Max, l, r => some (max l r)
  | _, .Min, l, r => some (min l r)

/-- Evaluating a constant charges `const_access` and returns its value. -/
lemma eval_const (v : Value) (env : Env) (c L : Nat) (h : c + 1 ≤ L) :
    eval (.Const v) env ⟨⟨c, L⟩⟩ = .ok (v, ⟨⟨c + 1, L⟩⟩) := by
  simp only [eval, CostAccum.add]
  rw [if_neg (by have hk : Costs.DEFAULT.const_access = 1 := rfl; omega)]
  rfl

/-- Evaluating a binary operation with a constant left operand charges the
operation cost, then the left constant's cost, then dispatches. -/
lemma eval_binOp_const (kind : BinOpKind) (lv : Value) (r : Expr) (env : Env) (c L : Nat)
    (h : c + 2 ≤ L) :
    eval (.binOp kind (.Const lv) r) env ⟨⟨c, L⟩⟩
      = evalBinOpRest kind lv ⟨⟨c + 2, L⟩⟩ (eval r env ⟨⟨c + 2, L⟩⟩) := by
  simp only [eval, CostAccum.add]
  rw [if_neg (by have hk : Costs.DEFAULT.eq_const_size = 1 := rfl; omega)]
  show (match eval (.Const lv) env ⟨⟨c + Costs.DEFAULT.eq_const_size, L⟩⟩ with
    | Except.error e => (Except.error e : Except EvalError (Value × EvalContext))
    | Except.ok (lv2, ctx1) => evalBinOpRest kind lv2 ctx1 (eval r env ctx1)) = _
  rw [eval_const lv env (c + Costs.DEFAULT.eq_const_size) L
    (by have hk : Costs.DEFAULT.eq_const_size = 1 := rfl; omega)]
  rfl

/-- A constant evaluation can only return its own value. -/
lemma eval_const_ok_val {v v' : Value} {env : Env} {ctx out : EvalContext}
    (h : eval (.Const v) env ctx = .ok (v', out)) : v' = v := by
  simp only [eval] at h
  cases hca : ctx.cost_accum.add Costs.DEFAULT.const_access with
  | error e => rw [hca] at h; exact Except.noConfusion h
  | ok ca =>
    rw [hca] at h
    replace h : Except.ok ((v : Value), (⟨ca⟩ : EvalContext)) = Except.ok (v', out) := h
    simp only [Except.ok.injEq, Prod.mk.injEq] at h
    exact h.1.symm

/-- A division by zero on `i64` (`1 / 0`), evaluation of which must fail. -/
def divByZeroLong : Expr := .binOp (.Arith .Divide) (.Const (.Long 1)) (.Const (.Long 0))

/-- `And` with a false left operand and a failing right operand. -/
def andShortCircuit : Expr := .binOp (.Relation .And) (.Const (.Boolean false)) divByZeroLong

/-- An `If` whose branches have different types (`SLong` vs `SBoolean`). -/
def mismatchedIf : If := ⟨.Const (.Boolean true), .Const (.Long 1), .Const (.Boolean false)⟩

/-- A sample unsigned input: all-zero box id, empty extension. -/
def sampleInput : UnsignedInput := ⟨⟨List.replicate 32 0⟩, ⟨[]⟩⟩

/-- A sample output candidate: value 1000000, empty ergo-tree, height 0. -/
def sampleOutput : ErgoBoxCandidate := ⟨1000000, [], 0, [], []⟩

/-- The sample input as a bounded vector. -/
def sampleIns : TxIoVec UnsignedInput := ⟨[sampleInput], by decide⟩

/-- The sample output as a bounded vector. -/
def sampleOuts : TxIoVec ErgoBoxCandidate := ⟨[sampleOutput], by decide⟩

/-- C1: for every well-typed expression `e`, parsing the serialization of
`e` yields a tree equal to `e` (given parser fuel covering its depth); in
particular, for every `If` node, `If::sigma_parse` applied to the output of
`If::sigma_serialize` reconstructs the same condition, true branch and
false branch. -/
theorem c1_serialize_parse_roundtrip :
    (∀ (e : Expr) (fuel : Nat) (rest : List Nat), wellTyped e = true → e.depth ≤ fuel →
      Expr.sigma_parse fuel (e.sigma_serialize ++ rest) = .ok (e, rest)) ∧
    (∀ (i : If) (fuel : Nat) (rest : List Nat),
      i.condition.depth ≤ fuel → i.true_branch.depth ≤ fuel → i.false_branch.depth ≤ fuel →
      If.sigma_parse fuel (If.sigma_serialize i ++ rest) = .ok (i, rest)) :=
  ⟨fun e fuel rest _ hd => sigma_parse_roundtrip e fuel rest hd,
   fun i fuel rest hc ht hf => if_sigma_parse_roundtrip i fuel rest hc ht hf⟩

/-- C1 witness: the round trip at a concrete well-typed `If` expression. -/
theorem c1_witness :
    Expr.sigma_parse 3 (Expr.sigma_serialize (.ifE (.Const (.Boolean true))
        (.Const (.Long 1)) (.Const (.Long 2))) ++ []) =
      .ok (.ifE (.Const (.Boolean true)) (.Const (.Long 1)) (.Const (.Long 2)), []) :=
  c1_serialize_parse_roundtrip.1
    (.ifE (.Const (.Boolean true)) (.Const (.Long 1)) (.Const (.Long 2)))
    3 [] (by decide) (by decide)

/-- C7 counterexample: an `If` whose branches have different types reports
the true branch's type (which differs from the false branch's type), and
its serialization parses back successfully — deserializing branches that
fail to unify is not a decode error. -/
theorem c7_counterexample :
    mismatchedIf.tpe ≠ mismatchedIf.false_branch.tpe ∧
    If.sigma_parse 2 (If.sigma_serialize mismatchedIf) = .ok (mismatchedIf, []) := by
  constructor
  · decide
  · have := if_sigma_parse_roundtrip mismatchedIf 2 [] (by decide) (by decide) (by decide)
    simpa using this

/-- C7 (amended): `If::tpe` is the true branch's type — hence it equals
both branches' type exactly when the branches unify — and `If::sigma_parse`
performs no branch-unification check: every serialized `If` parses back as
written, whether or not its branch types match. -/
theorem c7_if_tpe_and_parse :
    (∀ i : If, i.tpe = i.true_branch.tpe) ∧
    (∀ i : If, i.true_branch.tpe = i.false_branch.tpe → i.tpe = i.false_branch.tpe) ∧
    (∀ (i : If) (fuel : Nat) (rest : List Nat),
      i.condition.depth ≤ fuel → i.true_branch.depth ≤ fuel → i.false_branch.depth ≤ fuel →
      If.sigma_parse fuel (If.sigma_serialize i ++ rest) = .ok (i, rest)) :=
  ⟨fun _ => rfl,
   fun i h => (rfl : i.tpe = i.true_branch.tpe).trans h,
   fun i fuel rest hc ht hf => if_sigma_parse_roundtrip i fuel rest hc ht hf⟩

/-- C7 witness: on an `If` with matching branch types, `tpe` equals the
false branch's type as well. -/
theorem c7_witness :
    (If.mk (.Const (.Boolean true)) (.Const (.Long 1)) (.Const (.Long 2))).tpe
      = (Expr.Const (.Long 2)).tpe :=
  c7_if_tpe_and_parse.2.1 ⟨.Const (.Boolean true), .Const (.Long 1), .Const (.Long 2)⟩ rfl

/-- C9: after a successful evaluation the accumulator has grown by exactly
the per-node costs of the nodes actually visited (`visitedCost`: constants
and binary operations charge their per-node cost before recursing, `If`
charges nothing, short-circuited operands contribute nothing), the ceiling
is respected, and a `BinOp` whose charge would exceed the ceiling fails
with `CostLimitExceeded`. -/
theorem c9_cost_accounting :
    (∀ (e : Expr) (env : Env) (c L : Nat) (v : Value) (out : EvalContext),
      eval e env ⟨⟨c, L⟩⟩ = .ok (v, out) →
      out = ⟨⟨c + visitedCost e env, L⟩⟩ ∧ c + visitedCost e env ≤ L) ∧
    (∀ (kind : BinOpKind) (l r : Expr) (env : Env) (c L : Nat),
      L < c + Costs.DEFAULT.eq_const_size →
      eval (.binOp kind l r) env ⟨⟨c, L⟩⟩ = .error .CostLimitExceeded) := by
  constructor
  · exact fun e env c L v out h => (eval_ok_spec e env c L v out h).2
  · intro kind l r env c L hlim
    simp only [eval, CostAccum.add]
    rw [if_pos hlim]

/-- C9 witness: the short-circuited `And` visits only the operator node and
its left constant (cost 2); the failing right operand contributes
nothing. -/
theorem c9_witness :
    (⟨⟨2, 10⟩⟩ : EvalContext) = ⟨⟨0 + visitedCost andShortCircuit Env.empty, 10⟩⟩ ∧
    0 + visitedCost andShortCircuit Env.empty ≤ 10 :=
  c9_cost_accounting.1 andShortCircuit Env.empty 0 10 (.Boolean false) ⟨⟨2, 10⟩⟩ (by decide)

/-- C3: evaluation is lazy in the unneeded operand — `And` with a false
left constant returns false, and `Or` with a true left constant returns
true, for an arbitrary (possibly failing) right operand expression, which
is never evaluated; `If` evaluates only the branch selected by its
condition, so `If(Const(true), Const(1), 1/0)` yields `1` without
raising. -/
theorem c3_short_circuit_laziness :
    (∀ (r : Expr) (env : Env) (c L : Nat), c + 2 ≤ L →
      eval (.binOp (.Relation .And) (.Const (.Boolean false)) r) env ⟨⟨c, L⟩⟩
        = .ok (.Boolean false, ⟨⟨c + 2, L⟩⟩)) ∧
    (∀ (r : Expr) (env : Env) (c L : Nat), c + 2 ≤ L →
      eval (.binOp (.Relation .Or) (.Const (.Boolean true)) r) env ⟨⟨c, L⟩⟩
        = .ok (.Boolean true, ⟨⟨c + 2, L⟩⟩)) ∧
    (∀ (cond t f : Expr) (env : Env) (ctx ctx1 : EvalContext),
      eval cond env ctx = .ok (.Boolean true, ctx1) →
      eval (.ifE cond t f) env ctx = eval t env ctx1) ∧
    (∀ (cond t f : Expr) (env : Env) (ctx ctx1 : EvalContext),
      eval cond env ctx = .ok (.Boolean false, ctx1) →
      eval (.ifE cond t f) env ctx = eval f env ctx1) ∧
    (∀ env : Env,
      eval (.ifE (.Const (.Boolean true)) (.Const (.Long 1)) divByZeroLong) env ⟨⟨0, 10⟩⟩
        = .ok (.Long 1, ⟨⟨2, 10⟩⟩)) := by
  have hIfT : ∀ (cond t f : Expr) (env : Env) (ctx ctx1 : EvalContext),
      eval cond env ctx = .ok (.Boolean true, ctx1) →
      eval (.ifE cond t f) env ctx = eval t env ctx1 := by
    intro cond t f env ctx ctx1 h
    simp only [eval]
    rw [h]
    simp [Value.tryExtractBool]
  have hIfF : ∀ (cond t f : Expr) (env : Env) (ctx ctx1 : EvalContext),
      eval cond env ctx = .ok (.Boolean false, ctx1) →
      eval (.ifE cond t f) env ctx = eval f env ctx1 := by
    intro cond t f env ctx ctx1 h
    simp only [eval]
    rw [h]
    simp [Value.tryExtractBool]
  refine ⟨?_, ?_, hIfT, hIfF, ?_⟩
  · intro r env c L hb
    rw [eval_binOp_const (.Relation .And) (.Boolean false) r env c L (by omega)]
    simp [evalBinOpRest, Value.tryExtractBool]
  · intro r env c L hb
    rw [eval_binOp_const (.Relation .Or) (.Boolean true) r env c L (by omega)]
    simp [evalBinOpRest, Value.tryExtractBool]
  · intro env
    rw [hIfT (.Const (.Boolean true)) (.Const (.Long 1)) divByZeroLong env ⟨⟨0, 10⟩⟩ ⟨⟨1, 10⟩⟩
      (eval_const (.Boolean true) env 0 10 (by omega))]
    exact eval_const (.Long 1) env 1 10 (by omega)

/-- C3 witness: the laziness of `And` at the concrete failing right operand
`1/0 : i64`. -/
theorem c3_witness :
    eval (.binOp (.Relation .And) (.Const (.Boolean false)) divByZeroLong) Env.empty ⟨⟨0, 10⟩⟩
      = .ok (.Boolean false, ⟨⟨2, 10⟩⟩) :=
  c3_short_circuit_laziness.1 divByZeroLong Env.empty 0 10 (by decide)

/-- C4: for every pair of same-width signed integer values, `GT`/`LT`/`GE`/
`LE` evaluate to exactly the boolean `l > r`, `l < r`, `l ≥ r`, `l ≤ r`;
and `Eq` on two equal constants returns true (reflexivity). -/
theorem c4_relational_agreement :
    (∀ (w : IW) (l r : Int) (env : Env) (c L : Nat),
      inRange w l → inRange w r → c + 3 ≤ L →
      eval (.binOp (.Relation .GT) (.Const (Value.ofNum w l)) (.Const (Value.ofNum w r)))
          env ⟨⟨c, L⟩⟩ = .ok (.Boolean (decide (l > r)), ⟨⟨c + 3, L⟩⟩) ∧
      eval (.binOp (.Relation .LT) (.Const (Value.ofNum w l)) (.Const (Value.ofNum w r)))
          env ⟨⟨c, L⟩⟩ = .ok (.Boolean (decide (l < r)), ⟨⟨c + 3, L⟩⟩) ∧
      eval (.binOp (.Relation .GE) (.Const (Value.ofNum w l)) (.Const (Value.ofNum w r)))
          env ⟨⟨c, L⟩⟩ = .ok (.Boolean (decide (l ≥ r)), ⟨⟨c + 3, L⟩⟩) ∧
      eval (.binOp (.Relation .LE) (.Const (Value.ofNum w l)) (.Const (Value.ofNum w r)))
          env ⟨⟨c, L⟩⟩ = .ok (.Boolean (decide (l ≤ r)), ⟨⟨c + 3, L⟩⟩)) ∧
    (∀ (v : Value) (env : Env) (c L : Nat), c + 3 ≤ L →
      eval (.binOp (.Relation .Eq) (.Const v) (.Const v)) env ⟨⟨c, L⟩⟩
        = .ok (.Boolean true, ⟨⟨c + 3, L⟩⟩)) := by
  constructor
  · intro w l r env c L _ _ hb
    refine ⟨?_, ?_, ?_, ?_⟩ <;>
      rw [eval_binOp_const _ _ _ env c L (by omega),
        eval_const _ env (c + 2) L (by omega)] <;>
      cases w <;>
      simp [evalBinOpRest, relValue, eval_gt, eval_lt, eval_ge, eval_le,
        Value.tryExtractNum, Value.ofNum, withCtx, Except.map]
  · intro v env c L hb
    rw [eval_binOp_const _ _ _ env c L (by omega),
      eval_const _ env (c + 2) L (by omega)]
    simp [evalBinOpRest]

/-- C4 witness: concrete relational evaluations at width 32 and `Eq`
reflexivity at a concrete value. -/
theorem c4_witness :
    eval (.binOp (.Relation .GT) (.Const (Value.ofNum .W32 5)) (.Const (Value.ofNum .W32 3)))
        Env.empty ⟨⟨0, 10⟩⟩ = .ok (.Boolean (decide ((5 : Int) > 3)), ⟨⟨3, 10⟩⟩) ∧
    eval (.binOp (.Relation .Eq) (.Const (.Long 7)) (.Const (.Long 7))) Env.empty ⟨⟨0, 10⟩⟩
      = .ok (.Boolean true, ⟨⟨3, 10⟩⟩) :=
  ⟨(c4_relational_agreement.1 .W32 5 3 Env.empty 0 10 (by decide) (by decide) (by decide)).1,
   c4_relational_agreement.2 (.Long 7) Env.empty 0 10 (by decide)⟩

/-- C2: for every same-width signed integer pair and every
`Plus`/`Minus`/`Multiply`/`Divide`, evaluation returns exactly the host's
checked result when the checked operation succeeds, and fails with
`ArithmeticException` exactly when the checked operation returns none
(overflow or division by zero) — never a wrapped value. -/
theorem c2_arith_matches_host_checked (w : IW) (op : ArithOp)
    (hop : op = .Plus ∨ op = .Minus ∨ op = .Multiply ∨ op = .Divide)
    (l r : Int) (env : Env) (c L : Nat)
    (hl : inRange w l) (hr : inRange w r) (hbudget : c + 3 ≤ L) :
    (∀ s, hostChecked w op l r = some s →
      eval (.binOp (.Arith op) (.Const (Value.ofNum w l)) (.Const (Value.ofNum w r)))
        env ⟨⟨c, L⟩⟩ = .ok (Value.ofNum w s, ⟨⟨c + 3, L⟩⟩)) ∧
    (hostChecked w op l r = none →
      isArithmeticException
        (eval (.binOp (.Arith op) (.Const (Value.ofNum w l)) (.Const (Value.ofNum w r)))
          env ⟨⟨c, L⟩⟩) = true) := by
  have he : eval (.binOp (.Arith op) (.Const (Value.ofNum w l)) (.Const (Value.ofNum w r)))
      env ⟨⟨c, L⟩⟩
      = arithValue op.evalFn (Value.ofNum w l) (.ok (Value.ofNum w r, ⟨⟨c + 3, L⟩⟩)) := by
    rw [eval_binOp_const _ _ _ env c L (by omega),
      eval_const _ env (c + 2) L (by omega)]
    rfl
  rw [he]
  rcases hop with rfl | rfl | rfl | rfl <;> cases w <;>
    refine ⟨fun s hs => ?_, fun hn => ?_⟩ <;>
    simp_all [arithValue, ArithOp.evalFn, eval_plus, eval_minus, eval_mul, eval_div,
      Value.tryExtractNum, Value.ofNum, withCtx, hostChecked, isArithmeticException]

/-- C2 witness: `i64::MAX + 1` fails with `ArithmeticException`, and a
small in-range addition returns the checked sum. -/
theorem c2_witness :
    isArithmeticException
      (eval (.binOp (.Arith .Plus) (.Const (Value.ofNum .W64 9223372036854775807))
        (.Const (Value.ofNum .W64 1))) Env.empty ⟨⟨0, 10⟩⟩) = true ∧
    eval (.binOp (.Arith .Plus) (.Const (Value.ofNum .W32 2)) (.Const (Value.ofNum .W32 3)))
      Env.empty ⟨⟨0, 10⟩⟩ = .ok (Value.ofNum .W32 5, ⟨⟨3, 10⟩⟩) :=
  ⟨(c2_arith_matches_host_checked .W64 .Plus (Or.inl rfl) 9223372036854775807 1 Env.empty 0 10
      (by decide) (by decide) (by decide)).2 (by decide),
   (c2_arith_matches_host_checked .W32 .Plus (Or.inl rfl) 2 3 Env.empty 0 10
      (by decide) (by decide) (by decide)).1 5 (by decide)⟩

/-- C8: an arithmetic `BinOp` whose operands evaluate to integer values of
different widths, or whose left operand evaluates to a non-numeric value,
fails with the `UnexpectedValue` error kind — it never succeeds, never
wraps, and never panics for non-`BigInt` operands. -/
theorem c8_arith_width_mismatch_unexpected :
    (∀ (op : ArithOp) (w w2 : IW) (l r : Int) (env : Env) (c L : Nat),
      w ≠ w2 → c + 3 ≤ L →
      isUnexpectedValue
        (eval (.binOp (.Arith op) (.Const (Value.ofNum w l)) (.Const (Value.ofNum w2 r)))
          env ⟨⟨c, L⟩⟩) = true) ∧
    (∀ (op : ArithOp) (b : Bool) (r : Expr) (env : Env) (c L : Nat), c + 2 ≤ L →
      isUnexpectedValue
        (eval (.binOp (.Arith op) (.Const (.Boolean b)) r) env ⟨⟨c, L⟩⟩) = true) := by
  constructor
  · intro op w w2 l r env c L hne hb
    rw [eval_binOp_const _ _ _ env c L (by omega),
      eval_const _ env (c + 2) L (by omega)]
    cases op <;> cases w <;> cases w2 <;>
      simp_all [evalBinOpRest, arithValue, ArithOp.evalFn, eval_plus, eval_minus, eval_mul,
        eval_div, eval_max, eval_min, Value.tryExtractNum, Value.ofNum, withCtx,
        isUnexpectedValue]
  · intro op b r env c L hb
    rw [eval_binOp_const _ _ _ env c L (by omega)]
    cases op <;>
      simp [evalBinOpRest, arithValue, unexpectedLeft, isUnexpectedValue]

/-- C8 witness: `Plus` on an `i32` and an `i64` value, and `Plus` with a
boolean left operand, both fail with `UnexpectedValue`. -/
theorem c8_witness :
    isUnexpectedValue
      (eval (.binOp (.Arith .Plus) (.Const (Value.ofNum .W32 1)) (.Const (Value.ofNum .W64 1)))
        Env.empty ⟨⟨0, 10⟩⟩) = true ∧
    isUnexpectedValue
      (eval (.binOp (.Arith .Plus) (.Const (.Boolean true)) divByZeroLong)
        Env.empty ⟨⟨0, 10⟩⟩) = true :=
  ⟨c8_arith_width_mismatch_unexpected.1 .Plus .W32 .W64 1 1 Env.empty 0 10 (by decide) (by decide),
   c8_arith_width_mismatch_unexpected.2 .Plus true divByZeroLong Env.empty 0 10 (by decide)⟩

/-- Kinds covered by C10: the arithmetic operations and the orderings. -/
def isArithOrOrdering : BinOpKind → Bool
  | .Arith _ => true
  | .Relation .GT | .Relation .GE | .Relation .LT | .Relation .LE => true
  | _ => false

/-- C10: an arithmetic or ordering `BinOp` whose left operand evaluates to
a `BigInt` never silently returns a successful result — the `todo!()` in
the source is a panic, modelled as the distinguished `PanicTodo` outcome:
with the budget available, an arithmetic operation on a `BigInt` left
operand is refused outright (without even evaluating the right operand). -/
theorem c10_bigint_never_silently_succeeds :
    (∀ (kind : BinOpKind) (r : Expr) (env : Env) (ctx : EvalContext),
      isArithOrOrdering kind = true →
      isOkResult (eval (.binOp kind (.Const .BigInt) r) env ctx) = false) ∧
    (∀ (op : ArithOp) (r : Expr) (env : Env) (c L : Nat), c + 2 ≤ L →
      eval (.binOp (.Arith op) (.Const .BigInt) r) env ⟨⟨c, L⟩⟩
        = .error (.PanicTodo "not yet implemented")) := by
  constructor
  · intro kind r env ctx hk
    obtain ⟨⟨c, L⟩⟩ := ctx
    simp only [eval]
    cases hca : CostAccum.add ⟨c, L⟩ Costs.DEFAULT.eq_const_size with
    | error e => simp [isOkResult]
    | ok ca =>
      show isOkResult (match eval (.Const Value.BigInt) env ⟨ca⟩ with
        | Except.error e => (Except.error e : Except EvalError (Value × EvalContext))
        | Except.ok (lv, ctx1) => evalBinOpRest kind lv ctx1 (eval r env ctx1)) = false
      cases he : eval (.Const Value.BigInt) env ⟨ca⟩ with
      | error e => simp [isOkResult]
      | ok p =>
        obtain ⟨lv, ctx1⟩ := p
        have hlv : lv = Value.BigInt := eval_const_ok_val he
        subst hlv
        show isOkResult (evalBinOpRest kind Value.BigInt ctx1 (eval r env ctx1)) = false
        cases kind with
        | Arith op => simp [evalBinOpRest, arithValue, isOkResult]
        | Relation op =>
          cases hr : eval r env ctx1 with
          | error e =>
            cases op <;> simp_all [isArithOrOrdering, evalBinOpRest, relValue, isOkResult]
          | ok q =>
            obtain ⟨rvv, ctx2⟩ := q
            cases op <;>
              simp_all [isArithOrOrdering, evalBinOpRest, relValue, withCtx,
                eval_gt, eval_ge, eval_lt, eval_le, isOkResult]
  · intro op r env c L hb
    rw [eval_binOp_const _ _ _ env c L (by omega)]
    cases op <;> simp [evalBinOpRest, arithValue]

/-- C10 witness: `Plus` and `GT` on a `BigInt` left operand never return a
successful result; with budget available, `Plus` is refused outright. -/
theorem c10_witness :
    isOkResult (eval (.binOp (.Relation .GT) (.Const .BigInt) (.Const (.Long 1)))
      Env.empty ⟨⟨0, 10⟩⟩) = false ∧
    eval (.binOp (.Arith .Plus) (.Const .BigInt) divByZeroLong) Env.empty ⟨⟨0, 10⟩⟩
      = .error (.PanicTodo "not yet implemented") :=
  ⟨c10_bigint_never_silently_succeeds.1 (.Relation .GT) (.Const (.Long 1)) Env.empty
      ⟨⟨0, 10⟩⟩ (by decide),
   c10_bigint_never_silently_succeeds.2 .Plus divByZeroLong Env.empty 0 10 (by decide)⟩

/-- C5: the cached `tx_id` of every successfully constructed
`UnsignedTransaction` equals blake2b-256 of `bytes_to_sign` (the canonical
serialization with all proof bytes replaced by empty), agrees with a fresh
recomputation (`calc_tx_id`), and two constructions from identical vectors
yield the same id. -/
theorem c5_tx_id_hash :
    (∀ (ins : TxIoVec UnsignedInput) (di : Option (TxIoVec DataInput))
        (outs : TxIoVec ErgoBoxCandidate),
      (UnsignedTransaction.new ins di outs).id
        = ⟨blake2b256_hash (UnsignedTransaction.new ins di outs).bytes_to_sign⟩ ∧
      (UnsignedTransaction.new ins di outs).id
        = (UnsignedTransaction.new ins di outs).calc_tx_id) ∧
    (∀ (ins : List UnsignedInput) (di : List DataInput) (outs : List ErgoBoxCandidate)
        (t1 t2 : UnsignedTransaction),
      UnsignedTransaction.new_from_vec ins di outs = .ok t1 →
      UnsignedTransaction.new_from_vec ins di outs = .ok t2 → t1.id = t2.id) := by
  constructor
  · intro ins di outs
    constructor <;> rfl
  · intro ins di outs t1 t2 h1 h2
    rw [h1] at h2
    injection h2 with h3
    rw [h3]

/-- C5 witness: constructing the spec's sample transaction twice from the
same vectors yields the same id. -/
theorem c5_witness :
    (UnsignedTransaction.new sampleIns none sampleOuts).id
      = (UnsignedTransaction.new sampleIns none sampleOuts).id :=
  c5_tx_id_hash.2 [sampleInput] [] [sampleOutput]
    (UnsignedTransaction.new sampleIns none sampleOuts)
    (UnsignedTransaction.new sampleIns none sampleOuts)
    rfl rfl

lemma optEmptyVec_nil {α : Type} : optEmptyVec ([] : List α) = .ok none := rfl

lemma optEmptyVec_cons_ok {α : Type} (d : α) (ds : List α) (h : (d :: ds).length ≤ N_MAX) :
    optEmptyVec (d :: ds) = .ok (some ⟨d :: ds, ⟨Nat.le_add_left 1 ds.length, h⟩⟩) := by
  simp only [optEmptyVec, txIoVecOfList]
  rw [if_neg (by simp)]
  rw [dif_pos ⟨Nat.le_add_left 1 ds.length, h⟩]

lemma optEmptyVec_cons_err {α : Type} (d : α) (ds : List α) (h : N_MAX < (d :: ds).length) :
    optEmptyVec (d :: ds) = .error (d :: ds).length := by
  simp only [optEmptyVec, txIoVecOfList]
  rw [if_neg (by simp)]
  rw [dif_neg (by omega)]

/-- C6: `new_from_vec` succeeds exactly when `1 ≤ |inputs| ≤ N_MAX`,
`|data_inputs| ≤ N_MAX` and `1 ≤ |outputs| ≤ N_MAX`; empty inputs and empty
outputs are rejected, and each bound violation is reported with its own
`TransactionError` variant (`InvalidInputsCount`, `InvalidDataInputsCount`,
`InvalidOutputCandidatesCount`, checked in that order). -/
theorem c6_new_from_vec_validation :
    (∀ (ins : List UnsignedInput) (di : List DataInput) (outs : List ErgoBoxCandidate),
      isOkResult (UnsignedTransaction.new_from_vec ins di outs) = true ↔
        (1 ≤ ins.length ∧ ins.length ≤ N_MAX ∧ di.length ≤ N_MAX ∧
         1 ≤ outs.length ∧ outs.length ≤ N_MAX)) ∧
    (∀ (ins : List UnsignedInput) (di : List DataInput) (outs : List ErgoBoxCandidate),
      ¬(1 ≤ ins.length ∧ ins.length ≤ N_MAX) →
      UnsignedTransaction.new_from_vec ins di outs = .error (.InvalidInputsCount ins.length)) ∧
    (∀ (ins : List UnsignedInput) (di : List DataInput) (outs : List ErgoBoxCandidate),
      (1 ≤ ins.length ∧ ins.length ≤ N_MAX) → N_MAX < di.length →
      UnsignedTransaction.new_from_vec ins di outs
        = .error (.InvalidDataInputsCount di.length)) ∧
    (∀ (ins : List UnsignedInput) (di : List DataInput) (outs : List ErgoBoxCandidate),
      (1 ≤ ins.length ∧ ins.length ≤ N_MAX) → di.length ≤ N_MAX →
      ¬(1 ≤ outs.length ∧ outs.length ≤ N_MAX) →
      UnsignedTransaction.new_from_vec ins di outs
        = .error (.InvalidOutputCandidatesCount outs.length)) := by
  have hc2 : ∀ (ins : List UnsignedInput) (di : List DataInput) (outs : List ErgoBoxCandidate),
      ¬(1 ≤ ins.length ∧ ins.length ≤ N_MAX) →
      UnsignedTransaction.new_from_vec ins di outs
        = .error (.InvalidInputsCount ins.length) := by
    intro ins di outs h1
    simp only [UnsignedTransaction.new_from_vec, txIoVecOfList]
    rw [dif_neg h1]
  have hc3 : ∀ (ins : List UnsignedInput) (di : List DataInput) (outs : List ErgoBoxCandidate),
      (1 ≤ ins.length ∧ ins.length ≤ N_MAX) → N_MAX < di.length →
      UnsignedTransaction.new_from_vec ins di outs
        = .error (.InvalidDataInputsCount di.length) := by
    intro ins di outs h1 h2
    simp only [UnsignedTransaction.new_from_vec, txIoVecOfList]
    rw [dif_pos h1]
    cases di with
    | nil => simp [N_MAX] at h2
    | cons d ds => rw [optEmptyVec_cons_err d ds h2]
  have hc4 : ∀ (ins : List UnsignedInput) (di : List DataInput) (outs : List ErgoBoxCandidate),
      (1 ≤ ins.length ∧ ins.length ≤ N_MAX) → di.length ≤ N_MAX →
      ¬(1 ≤ outs.length ∧ outs.length ≤ N_MAX) →
      UnsignedTransaction.new_from_vec ins di outs
        = .error (.InvalidOutputCandidatesCount outs.length) := by
    intro ins di outs h1 h2 h3
    simp only [UnsignedTransaction.new_from_vec, txIoVecOfList]
    rw [dif_pos h1]
    cases di with
    | nil =>
      rw [optEmptyVec_nil]
      rw [dif_neg h3]
    | cons d ds =>
      rw [optEmptyVec_cons_ok d ds h2]
      rw [dif_neg h3]
  have hsucc : ∀ (ins : List UnsignedInput) (di : List DataInput) (outs : List ErgoBoxCandidate),
      (1 ≤ ins.length ∧ ins.length ≤ N_MAX) → di.length ≤ N_MAX →
      (1 ≤ outs.length ∧ outs.length ≤ N_MAX) →
      isOkResult (UnsignedTransaction.new_from_vec ins di outs) = true := by
    intro ins di outs h1 h2 h3
    simp only [UnsignedTransaction.new_from_vec, txIoVecOfList]
    rw [dif_pos h1]
    cases di with
    | nil =>
      rw [optEmptyVec_nil, dif_pos h3]
      rfl
    | cons d ds =>
      rw [optEmptyVec_cons_ok d ds h2]
      rw [dif_pos h3]
      rfl
  refine ⟨?_, hc2, hc3, hc4⟩
  intro ins di outs
  constructor
  · intro hok
    by_cases h1 : 1 ≤ ins.length ∧ ins.length ≤ N_MAX
    · by_cases h2 : di.length ≤ N_MAX
      · by_cases h3 : 1 ≤ outs.length ∧ outs.length ≤ N_MAX
        · exact ⟨h1.1, h1.2, h2, h3.1, h3.2⟩
        · rw [hc4 ins di outs h1 h2 h3] at hok
          simp [isOkResult] at hok
      · rw [hc3 ins di outs h1 (by omega)] at hok
        simp [isOkResult] at hok
    · rw [hc2 ins di outs h1] at hok
      simp [isOkResult] at hok
  · rintro ⟨ha, hb, hcd, hd, he2⟩
    exact hsucc ins di outs ⟨ha, hb⟩ hcd ⟨hd, he2⟩

/-- C6 witness: empty inputs are rejected with `InvalidInputsCount`, empty
outputs with `InvalidOutputCandidatesCount`, and the sample transaction's
vectors are accepted. -/
theorem c6_witness :
    UnsignedTransaction.new_from_vec [] [] [sampleOutput]
      = .error (.InvalidInputsCount 0) ∧
    UnsignedTransaction.new_from_vec [sampleInput] [] []
      = .error (.InvalidOutputCandidatesCount 0) ∧
    isOkResult (UnsignedTransaction.new_from_vec [sampleInput] [] [sampleOutput]) = true :=
  ⟨c6_new_from_vec_validation.2.1 [] [] [sampleOutput] (by decide),
   c6_new_from_vec_validation.2.2.2 [sampleInput] [] [] (by decide) (by decide) (by decide),
   (c6_new_from_vec_validation.1 [sampleInput] [] [sampleOutput]).mpr (by decide)⟩
